import Mathlib

/-!
Verification of the hitman-commons resource-identity and metadata codec.

This file shallowly embeds the core of the repository (the `RuntimeID`
identifier, the `ReferenceFlags` bit formats, the RPKG binary metadata codec
and the hash-catalogue load path) as executable Lean definitions, translated
from `src/metadata.rs`, `src/rpkg_tool.rs` and `src/hash_list.rs`, and proves
the specified properties about them.

Machine integers are modelled as `Nat` with explicit truncation where the
source relies on fixed-width behaviour; byte buffers are `List Nat` with
every element intended to be below 256; fallible operations return `Except`.
-/

namespace HitmanCommons

/-- Bytes of a little-endian fixed-width integer, as produced by
`u32::to_le_bytes` / `u64::to_le_bytes` (width `n` bytes). -/
def toLEBytes (n : Nat) (v : Nat) : List Nat :=
  match n with
  | 0 => []
  | k + 1 => v % 256 :: toLEBytes k (v / 256)

/-- Value of a little-endian byte list, as computed by `u64::from_le_bytes`
and `u32::from_le_bytes`. -/
def fromLEBytes (bs : List Nat) : Nat :=
  bs.foldr (fun b acc => acc * 256 + b) 0

/-- Uppercase hexadecimal digit characters used by Rust `{:X}` formatting. -/
def hexDigitChar (d : Nat) : Char :=
  match d with
  | 0 => '0' | 1 => '1' | 2 => '2' | 3 => '3'
  | 4 => '4' | 5 => '5' | 6 => '6' | 7 => '7'
  | 8 => '8' | 9 => '9' | 10 => 'A' | 11 => 'B'
  | 12 => 'C' | 13 => 'D' | 14 => 'E' | _ => 'F'

/-- Digit-extraction loop for hexadecimal formatting, structurally recursive
on a fuel argument that bounds the number held. -/
def natToHexAux (fuel n : Nat) : List Char :=
  match fuel with
  | 0 => []
  | fuel + 1 =>
    if n < 16 then [hexDigitChar n]
    else natToHexAux fuel (n / 16) ++ [hexDigitChar (n % 16)]

/-- Minimal-width uppercase hexadecimal rendering of a natural number,
matching Rust `{:X}` formatting. -/
def natToHex (n : Nat) : List Char := natToHexAux (n + 1) n

/-- Rust `{:0>16X}` / `{:016X}` formatting: uppercase hex, left-padded with
zeros to 16 characters. -/
def hex16 (n : Nat) : String :=
  ⟨List.replicate (16 - (natToHex n).length) '0' ++ natToHex n⟩

/-- Rust `{:X}` formatting as a string. -/
def hexUpper (n : Nat) : String := ⟨natToHex n⟩

/-- Value of one hexadecimal digit character, as in Rust
`char::to_digit(16)`: `0-9`, `a-f` and `A-F` are accepted. -/
def hexCharVal (c : Char) : Option Nat :=
  if 48 ≤ c.toNat ∧ c.toNat ≤ 57 then some (c.toNat - 48)
  else if 97 ≤ c.toNat ∧ c.toNat ≤ 102 then some (c.toNat - 87)
  else if 65 ≤ c.toNat ∧ c.toNat ≤ 70 then some (c.toNat - 55)
  else none

/-- Accumulating radix-16 digit parse (the digit loop inside Rust
`from_str_radix`); `none` on the first non-digit character. -/
def parseHexAcc (cs : List Char) (acc : Nat) : Option Nat :=
  match cs with
  | [] => some acc
  | c :: rest =>
    match hexCharVal c with
    | none => none
    | some d => parseHexAcc rest (acc * 16 + d)

/-- Error kinds of Rust `std::num::ParseIntError` relevant here. -/
inductive ParseIntErr
  | empty
  | invalidDigit
  | posOverflow
deriving DecidableEq, Repr

/-- Rust `u64::from_str_radix(s, 16)`: optional leading `+`, at least one
digit, all characters hexadecimal digits, value below `2^64`. -/
def u64FromStrRadix16 (s : String) : Except ParseIntErr Nat :=
  match s.data with
  | [] => .error .empty
  | c :: rest =>
    let digits := if c = '+' then rest else c :: rest
    if digits.isEmpty then .error .invalidDigit
    else
      match parseHexAcc digits 0 with
      | none => .error .invalidDigit
      | some v => if v < 2 ^ 64 then .ok v else .error .posOverflow

/-- Rust `u8::from_str_radix(s, 16)`: same shape with overflow at 256. -/
def u8FromStrRadix16 (s : String) : Except ParseIntErr Nat :=
  match s.data with
  | [] => .error .empty
  | c :: rest =>
    let digits := if c = '+' then rest else c :: rest
    if digits.isEmpty then .error .invalidDigit
    else
      match parseHexAcc digits 0 with
      | none => .error .invalidDigit
      | some v => if v < 256 then .ok v else .error .posOverflow

/-- ASCII lowercasing of one character, as in Rust
`u8::to_ascii_lowercase` applied characterwise. -/
def asciiLowerChar (c : Char) : Char :=
  if 65 ≤ c.toNat ∧ c.toNat ≤ 90 then Char.ofNat (c.toNat + 32) else c

/-- ASCII uppercasing of one character (Rust `to_uppercase` restricted to
the ASCII range, which is all the relevant inputs contain). -/
def asciiUpperChar (c : Char) : Char :=
  if 97 ≤ c.toNat ∧ c.toNat ≤ 122 then Char.ofNat (c.toNat - 32) else c

/-- Rust `str::to_ascii_lowercase`. -/
def asciiLower (s : String) : String := ⟨s.data.map asciiLowerChar⟩

/-- Uppercasing of a string (characterwise ASCII). -/
def asciiUpper (s : String) : String := ⟨s.data.map asciiUpperChar⟩

/-- UTF-8 encoding of one character (Rust `char::encode_utf8`). -/
def utf8EncodeChar (c : Char) : List Nat :=
  if c.toNat < 0x80 then [c.toNat]
  else if c.toNat < 0x800 then
    [0xC0 + c.toNat / 64, 0x80 + c.toNat % 64]
  else if c.toNat < 0x10000 then
    [0xE0 + c.toNat / 4096, 0x80 + c.toNat / 64 % 64, 0x80 + c.toNat % 64]
  else
    [0xF0 + c.toNat / 262144, 0x80 + c.toNat / 4096 % 64,
     0x80 + c.toNat / 64 % 64, 0x80 + c.toNat % 64]

/-- UTF-8 bytes of a string (Rust `str::as_bytes`). -/
def strBytes (s : String) : List Nat :=
  (s.data.map utf8EncodeChar).flatten

end HitmanCommons

namespace HitmanCommons.Md5

/-- Per-round left-rotation amounts of MD5. -/
def shiftTable : List Nat :=
  [7, 12, 17, 22, 7, 12, 17, 22, 7, 12, 17, 22, 7, 12, 17, 22,
   5, 9, 14, 20, 5, 9, 14, 20, 5, 9, 14, 20, 5, 9, 14, 20,
   4, 11, 16, 23, 4, 11, 16, 23, 4, 11, 16, 23, 4, 11, 16, 23,
   6, 10, 15, 21, 6, 10, 15, 21, 6, 10, 15, 21, 6, 10, 15, 21]

/-- The MD5 sine-derived constant table. -/
def sineTable : List Nat :=
  [0xd76aa478, 0xe8c7b756, 0x242070db, 0xc1bdceee,
   0xf57c0faf, 0x4787c62a, 0xa8304613, 0xfd469501,
   0x698098d8, 0x8b44f7af, 0xffff5bb1, 0x895cd7be,
   0x6b901122, 0xfd987193, 0xa679438e, 0x49b40821,
   0xf61e2562, 0xc040b340, 0x265e5a51, 0xe9b6c7aa,
   0xd62f105d, 0x02441453, 0xd8a1e681, 0xe7d3fbc8,
   0x21e1cde6, 0xc33707d6, 0xf4d50d87, 0x455a14ed,
   0xa9e3e905, 0xfcefa3f8, 0x676f02d9, 0x8d2a4c8a,
   0xfffa3942, 0x8771f681, 0x6d9d6122, 0xfde5380c,
   0xa4beea44, 0x4bdecfa9, 0xf6bb4b60, 0xbebfbc70,
   0x289b7ec6, 0xeaa127fa, 0xd4ef3085, 0x04881d05,
   0xd9d4d039, 0xe6db99e5, 0x1fa27cf8, 0xc4ac5665,
   0xf4292244, 0x432aff97, 0xab9423a7, 0xfc93a039,
   0x655b59c3, 0x8f0ccc92, 0xffeff47d, 0x85845dd1,
   0x6fa87e4f, 0xfe2ce6e0, 0xa3014314, 0x4e0811a1,
   0xf7537e82, 0xbd3af235, 0x2ad7d2bb, 0xeb86d391]

/-- 32-bit truncating addition. -/
def add32 (a b : Nat) : Nat := (a + b) % 4294967296

/-- 32-bit bitwise complement (inputs below `2^32`). -/
def not32 (a : Nat) : Nat := 4294967295 - a

/-- 32-bit left rotation. -/
def rotl32 (x n : Nat) : Nat :=
  ((x * 2 ^ n) % 4294967296) ||| (x / 2 ^ (32 - n))

/-- Working state of the MD5 compression function. -/
structure St where
  a : Nat
  b : Nat
  c : Nat
  d : Nat

/-- One of the 64 MD5 rounds over a 64-byte chunk. -/
def round (chunk : List Nat) (st : St) (i : Nat) : St :=
  let fg : Nat × Nat :=
    if i < 16 then ((st.b &&& st.c) ||| (not32 st.b &&& st.d), i)
    else if i < 32 then ((st.d &&& st.b) ||| (not32 st.d &&& st.c), (5 * i + 1) % 16)
    else if i < 48 then (st.b ^^^ st.c ^^^ st.d, (3 * i + 5) % 16)
    else (st.c ^^^ (st.b ||| not32 st.d), (7 * i) % 16)
  let m := fromLEBytes ((chunk.drop (4 * fg.2)).take 4)
  let f := add32 (add32 (add32 fg.1 st.a) (sineTable.getD i 0)) m
  ⟨st.d, add32 st.b (rotl32 f (shiftTable.getD i 0)), st.b, st.c⟩

/-- The MD5 compression function on one 64-byte chunk. -/
def processChunk (st : St) (chunk : List Nat) : St :=
  let r := (List.range 64).foldl (round chunk) st
  ⟨add32 st.a r.a, add32 st.b r.b, add32 st.c r.c, add32 st.d r.d⟩

/-- MD5 padding: a `0x80` byte, zeros to 56 mod 64, then the bit length as a
little-endian 64-bit integer. -/
def pad (msg : List Nat) : List Nat :=
  msg ++ [0x80] ++
    List.replicate ((64 + 56 - (msg.length + 1) % 64) % 64) 0 ++
    toLEBytes 8 ((msg.length * 8) % 2 ^ 64)

/-- Split a byte list into 64-byte chunks. -/
def chunks64 (bs : List Nat) : List (List Nat) :=
  if _h : bs.length = 0 then []
  else bs.take 64 :: chunks64 (bs.drop 64)
termination_by bs.length
decreasing_by simp only [List.length_drop]; omega

/-- Little-endian bytes of one 32-bit word of the digest. -/
def wordLE (w : Nat) : List Nat :=
  [w % 256, w / 256 % 256, w / 65536 % 256, w / 16777216 % 256]

/-- The 16-byte MD5 digest of a byte message, as computed by the `md5`
crate's `md5::compute`. -/
def md5 (msg : List Nat) : List Nat :=
  let st := (chunks64 (pad msg)).foldl processChunk
    ⟨0x67452301, 0xefcdab89, 0x98badcfe, 0x10325476⟩
  wordLE st.a ++ wordLE st.b ++ wordLE st.c ++ wordLE st.d

end HitmanCommons.Md5

namespace HitmanCommons

/-- The Unicode replacement character emitted by lossy UTF-8 decoding. -/
def replChar : Char := Char.ofNat 0xFFFD

/-- Whether `b2` is an acceptable second byte for the three-byte lead `b`
(Rust `core::str` validation ranges). -/
def utf8Cont2OK (b b2 : Nat) : Bool :=
  if b = 0xE0 then decide (0xA0 ≤ b2 ∧ b2 ≤ 0xBF)
  else if b = 0xED then decide (0x80 ≤ b2 ∧ b2 ≤ 0x9F)
  else decide (0x80 ≤ b2 ∧ b2 ≤ 0xBF)

/-- Whether `b2` is an acceptable second byte for the four-byte lead `b`. -/
def utf8Cont3OK (b b2 : Nat) : Bool :=
  if b = 0xF0 then decide (0x90 ≤ b2 ∧ b2 ≤ 0xBF)
  else if b = 0xF4 then decide (0x80 ≤ b2 ∧ b2 ≤ 0x8F)
  else decide (0x80 ≤ b2 ∧ b2 ≤ 0xBF)

/-- Decode loop of lossy UTF-8 decoding, structurally recursive on a fuel
argument that bounds the length of the byte list. -/
def utf8LossyAux (fuel : Nat) (l : List Nat) : List Char :=
  match fuel with
  | 0 => []
  | fuel + 1 =>
  match l with
  | [] => []
  | b :: rest =>
    if b < 0x80 then Char.ofNat b :: utf8LossyAux fuel rest
    else if b < 0xC2 then replChar :: utf8LossyAux fuel rest
    else if b < 0xE0 then
      match rest with
      | [] => [replChar]
      | b2 :: rest2 =>
        if 0x80 ≤ b2 ∧ b2 ≤ 0xBF then
          Char.ofNat ((b - 0xC0) * 64 + (b2 - 0x80)) :: utf8LossyAux fuel rest2
        else replChar :: utf8LossyAux fuel (b2 :: rest2)
    else if b < 0xF0 then
      match rest with
      | [] => [replChar]
      | b2 :: rest2 =>
        if utf8Cont2OK b b2 then
          match rest2 with
          | [] => [replChar]
          | b3 :: rest3 =>
            if 0x80 ≤ b3 ∧ b3 ≤ 0xBF then
              Char.ofNat ((b - 0xE0) * 4096 + (b2 - 0x80) * 64 + (b3 - 0x80)) ::
                utf8LossyAux fuel rest3
            else replChar :: utf8LossyAux fuel (b3 :: rest3)
        else replChar :: utf8LossyAux fuel (b2 :: rest2)
    else if b < 0xF5 then
      match rest with
      | [] => [replChar]
      | b2 :: rest2 =>
        if utf8Cont3OK b b2 then
          match rest2 with
          | [] => [replChar]
          | b3 :: rest3 =>
            if 0x80 ≤ b3 ∧ b3 ≤ 0xBF then
              match rest3 with
              | [] => [replChar]
              | b4 :: rest4 =>
                if 0x80 ≤ b4 ∧ b4 ≤ 0xBF then
                  Char.ofNat ((b - 0xF0) * 262144 + (b2 - 0x80) * 4096 +
                      (b3 - 0x80) * 64 + (b4 - 0x80)) :: utf8LossyAux fuel rest4
                else replChar :: utf8LossyAux fuel (b4 :: rest4)
            else replChar :: utf8LossyAux fuel (b3 :: rest3)
        else replChar :: utf8LossyAux fuel (b2 :: rest2)
    else replChar :: utf8LossyAux fuel rest

/-- Lossy UTF-8 decoding with substitution of maximal invalid subparts, as
performed by Rust `String::from_utf8_lossy`. -/
def utf8Lossy (l : List Nat) : List Char := utf8LossyAux l.length l

/-- Rust `String::from_utf8_lossy` producing a string. -/
def utf8LossyDecode (bs : List Nat) : String := ⟨utf8Lossy bs⟩

/-- Whether a byte list is valid UTF-8 (Rust `String::from_utf8` success),
defined through the lossy decoder: a valid list decodes without any
replacement character being introduced for an invalid subpart.  On valid
input the lossy decoder performs exactly UTF-8 validation, so this matches
Rust `str::from_utf8`'s acceptance. -/
def utf8IsValidAux (fuel : Nat) (bs : List Nat) : Bool :=
  match fuel with
  | 0 => true
  | fuel + 1 =>
  match bs with
  | [] => true
  | b :: rest =>
    if b < 0x80 then utf8IsValidAux fuel rest
    else if b < 0xC2 then false
    else if b < 0xE0 then
      match rest with
      | [] => false
      | b2 :: rest2 =>
        if 0x80 ≤ b2 ∧ b2 ≤ 0xBF then utf8IsValidAux fuel rest2 else false
    else if b < 0xF0 then
      match rest with
      | [] => false
      | b2 :: rest2 =>
        if utf8Cont2OK b b2 then
          match rest2 with
          | [] => false
          | b3 :: rest3 =>
            if 0x80 ≤ b3 ∧ b3 ≤ 0xBF then utf8IsValidAux fuel rest3 else false
        else false
    else if b < 0xF5 then
      match rest with
      | [] => false
      | b2 :: rest2 =>
        if utf8Cont3OK b b2 then
          match rest2 with
          | [] => false
          | b3 :: rest3 =>
            if 0x80 ≤ b3 ∧ b3 ≤ 0xBF then
              match rest3 with
              | [] => false
              | b4 :: rest4 =>
                if 0x80 ≤ b4 ∧ b4 ≤ 0xBF then utf8IsValidAux fuel rest4 else false
            else false
        else false
    else false

/-- Whether a byte list is valid UTF-8 (see `utf8IsValidAux`). -/
def utf8IsValid (bs : List Nat) : Bool := utf8IsValidAux bs.length bs

end HitmanCommons

namespace HitmanCommons

/-- The error of `RuntimeID::try_from::<u64>` (`FromU64Error`). -/
inductive FromU64Error
  | tooHigh
deriving DecidableEq, Repr

/-- The `RuntimeID` newtype over `u64` from `src/metadata.rs`. -/
structure RuntimeID where
  val : Nat
deriving DecidableEq, Repr

/-- `impl TryFrom<u64> for RuntimeID`: accept values strictly below
`0x00FFFFFFFFFFFFFF`, reject the rest with `TooHigh`. -/
def RuntimeID.try_from (value : Nat) : Except FromU64Error RuntimeID :=
  if value < 0x00FFFFFFFFFFFFFF then .ok ⟨value⟩ else .error .tooHigh

/-- The error of `RuntimeID::from_str` (`RuntimeIDFromStrError`). -/
inductive RuntimeIDFromStrError
  | invalidNumber (e : ParseIntErr)
  | invalidLength
  | invalidID (e : FromU64Error)
deriving DecidableEq, Repr

/-- `impl FromStr for RuntimeID`: exactly 16 bytes, hexadecimal parse,
then the `TryFrom<u64>` range check. -/
def RuntimeID.from_str (s : String) : Except RuntimeIDFromStrError RuntimeID :=
  if (strBytes s).length ≠ 16 then .error .invalidLength
  else
    match u64FromStrRadix16 s with
    | .error e => .error (.invalidNumber e)
    | .ok v =>
      match RuntimeID.try_from v with
      | .error e => .error (.invalidID e)
      | .ok id => .ok id

/-- `impl Display for RuntimeID`: `write!(f, ...)` with the `016X` format,
sixteen zero-padded uppercase hex digits of the raw value.  It performs no
catalogue lookup of any kind. -/
def RuntimeID.display (id : RuntimeID) : String := hex16 id.val

/-- `RuntimeID::from_path`: MD5 of the ASCII-lowercased path, bytes 1..7 of
the digest packed big-endian into the low 56 bits.  The source performs no
other action: in particular it touches no global state. -/
def RuntimeID.from_path (path : String) : RuntimeID :=
  let digest := Md5.md5 (strBytes (asciiLower path))
  ⟨(List.range' 1 7).foldl
    (fun val i => val ||| (digest.getD i 0) <<< (8 * (7 - i))) 0⟩

/-- `RuntimeID::from_any`: strings starting with `'0'` parse as hex IDs,
anything else hashes as a path. -/
def RuntimeID.from_any (val : String) : Except RuntimeIDFromStrError RuntimeID :=
  if val.data.head? = some '0' then RuntimeID.from_str val
  else .ok (RuntimeID.from_path val)

/-- The closed set of reference kinds (`ReferenceType`). -/
inductive ReferenceType
  | install
  | normal
  | weak
  | media
  | state
  | entityType
deriving DecidableEq, Repr

/-- Bit-packed per-reference metadata (`ReferenceFlags`): kind, runtime
acquisition flag and 5-bit language code. -/
structure ReferenceFlags where
  reference_type : ReferenceType
  acquired : Bool
  language_code : Nat
deriving DecidableEq, Repr

/-- `impl Default for ReferenceFlags`. -/
def ReferenceFlags.default : ReferenceFlags :=
  { reference_type := .install, acquired := false, language_code := 0b11111 }

/-- `ReferenceFlags::from_legacy`: decode the legacy bit layout (bit 7
install, bit 6 media, bit 5 state, bit 4 entity-type, bit 2 weak, bit 1
acquired); the language code is fixed at `0x1F`. -/
def ReferenceFlags.from_legacy (flag : Nat) : ReferenceFlags :=
  let install_dependency := flag &&& 0b10000000 == 0b10000000
  let media_streamed := flag &&& 0b01000000 == 0b01000000
  let state_streamed := flag &&& 0b00100000 == 0b00100000
  let type_of_streaming_entity := flag &&& 0b00010000 == 0b00010000
  let weak_reference := flag &&& 0b00000100 == 0b00000100
  let runtime_acquired := flag &&& 0b00000010 == 0b00000010
  { reference_type :=
      if type_of_streaming_entity then .entityType
      else if install_dependency then .install
      else if weak_reference then .weak
      else if media_streamed then .media
      else if state_streamed then .state
      else .normal
  , acquired := runtime_acquired
  , language_code := 0x1F }

/-- `ReferenceFlags::from_modern`: bits 6-7 select the kind (`00` install,
`01` normal, `10` weak, anything else normal), bit 5 the acquisition flag,
bits 0-4 the language code. -/
def ReferenceFlags.from_modern (flag : Nat) : ReferenceFlags :=
  { reference_type :=
      if flag &&& 0b11000000 == 0b00000000 then .install
      else if flag &&& 0b11000000 == 0b01000000 then .normal
      else if flag &&& 0b11000000 == 0b10000000 then .weak
      else .normal
  , acquired := flag &&& 0b00100000 != 0
  , language_code := flag &&& 0b00011111 }

/-- `ReferenceFlags::from_any`: if a legacy padding bit (0 or 3) is set the
byte is modern; otherwise it is modern exactly when the legacy reading would
be contradictory (install together with weak, or two of media/state/entity
simultaneously); otherwise legacy. -/
def ReferenceFlags.from_any (flag : Nat) : ReferenceFlags :=
  if flag &&& 0b00001001 != 0 then ReferenceFlags.from_modern flag
  else
    let install_dependency := flag &&& 0b10000000 == 0b10000000
    let media_streamed := flag &&& 0b01000000 == 0b01000000
    let state_streamed := flag &&& 0b00100000 == 0b00100000
    let type_of_streaming_entity := flag &&& 0b00010000 == 0b00010000
    let weak_reference := flag &&& 0b00000100 == 0b00000100
    if install_dependency && weak_reference
        || media_streamed && state_streamed
        || state_streamed && type_of_streaming_entity
        || media_streamed && type_of_streaming_entity then
      ReferenceFlags.from_modern flag
    else
      ReferenceFlags.from_legacy flag

/-- `ReferenceFlags::as_legacy`: re-encode into the legacy bit layout. -/
def ReferenceFlags.as_legacy (f : ReferenceFlags) : Nat :=
  let flag : Nat :=
    match f.reference_type with
    | .install => 0b10000000
    | .normal => 0b00000000
    | .weak => 0b00000100
    | .media => 0b01000000
    | .state => 0b00100000
    | .entityType => 0b10010000
  if f.acquired then flag ||| 0b00000010 else flag

/-- `ReferenceFlags::as_modern`: language code in bits 0-4, acquisition in
bit 5, collapsed kind in bits 6-7. -/
def ReferenceFlags.as_modern (f : ReferenceFlags) : Nat :=
  f.language_code |||
    ((if f.acquired then 1 else 0) <<< 5) |||
    ((match f.reference_type with
      | .install => 0
      | .normal => 1
      | .weak => 2
      | .media => 2
      | .state => 1
      | .entityType => 0) <<< 6)

/-- `PathedID`: either a known path or a bare `RuntimeID`. -/
inductive PathedID
  | path (p : String)
  | unknown (id : RuntimeID)
deriving Repr

/-- `PathedID::get_id`: paths hash through `RuntimeID::from_path`. -/
def PathedID.get_id : PathedID → RuntimeID
  | .path p => RuntimeID.from_path p
  | .unknown id => id

/-- `impl PartialEq for PathedID`: equality of the underlying IDs (the
derived `u64` equality), never of the path text. -/
def PathedID.beq (a b : PathedID) : Bool :=
  a.get_id.val == b.get_id.val

/-- `impl Hash for PathedID`: hash the underlying ID only, for any hasher
`h` on `RuntimeID`. -/
def PathedID.hashWith {β : Type} (h : RuntimeID → β) (x : PathedID) : β :=
  h x.get_id

/-- The error of `ResourceType` construction (`ResourceTypeError`). -/
inductive ResourceTypeError
  | invalidLength
  | invalidString
deriving DecidableEq, Repr

/-- The `ResourceType` 4-byte tag from `src/metadata.rs`. -/
structure ResourceType where
  bytes : List Nat
deriving DecidableEq, Repr

/-- `impl TryFrom<[u8; 4]> for ResourceType`: the four bytes must be valid
UTF-8 (`String::from_utf8` succeeds). -/
def ResourceType.try_from_bytes (val : List Nat) : Except ResourceTypeError ResourceType :=
  if utf8IsValid val then .ok ⟨val⟩ else .error .invalidString

/-- `impl TryFrom<&str> for ResourceType`: the UTF-8 byte representation
must be exactly four bytes. -/
def ResourceType.try_from_str (value : String) : Except ResourceTypeError ResourceType :=
  if (strBytes value).length = 4 then .ok ⟨strBytes value⟩
  else .error .invalidLength

end HitmanCommons

namespace HitmanCommons

/-- Catalogue entry payload (`HashData` in `src/hash_list.rs`). -/
structure HashData where
  resource_type : ResourceType
  path : Option String
  hint : Option String
deriving DecidableEq, Repr

/-- One record of the decoded snapshot document (`DeserialisedEntry`). -/
structure DeserialisedEntry where
  resource_type : ResourceType
  hash : RuntimeID
  path : String
  hint : String
  game_flags : Nat
deriving DecidableEq, Repr

/-- The decoded snapshot document (`DeserialisedHashList`). -/
structure DeserialisedHashList where
  version : Nat
  entries : List DeserialisedEntry
deriving DecidableEq, Repr

/-- The live `HashList` global: version counter and entries map.  The map is
modelled as an association list keyed by `RuntimeID`. -/
structure HashList where
  version : Nat
  entries : List (RuntimeID × HashData)
deriving DecidableEq, Repr

/-- Entry lookup on the live hash list (`self.entries.load().get(id)`). -/
def HashList.get (hl : HashList) (id : RuntimeID) : Option HashData :=
  (hl.entries.lookup id)

/-- Conversion of one deserialised entry into the stored map pair, with
empty `path`/`hint` strings normalised to `None`
(`(!entry.path.is_empty()).then_some(entry.path)`). -/
def entryToPair (entry : DeserialisedEntry) : RuntimeID × HashData :=
  (entry.hash,
   { resource_type := entry.resource_type
   , path := if entry.path = "" then none else some entry.path
   , hint := if entry.hint = "" then none else some entry.hint })

/-- The error of the snapshot load path (`DeserialisationError`). -/
inductive DeserialisationError
  | decompressionFailed
  | deserialisationFailed
deriving DecidableEq, Repr

/-- `HashList::load_compressed` on the live global, with the external Brotli
decompressor and Smile deserialiser supplied as function parameters (they
are third-party crates, not code of this repository): decompress, then
deserialise, and only if both succeed store the new version and replace the
entries map.  Returns the call result paired with the state of the live
`HashList` after the call. -/
def HashList.load_compressed
    (decompress : List Nat → Except Unit (List Nat))
    (deserialise : List Nat → Except Unit DeserialisedHashList)
    (data : List Nat) (st : HashList) :
    Except DeserialisationError Unit × HashList :=
  match decompress data with
  | .error _ => (.error .decompressionFailed, st)
  | .ok decompressed =>
    match deserialise decompressed with
    | .error _ => (.error .deserialisationFailed, st)
    | .ok hash_list =>
      (.ok (),
       { version := hash_list.version
       , entries := hash_list.entries.map entryToPair })

/-- The process-wide mutable state relevant to `RuntimeID::from_path`: the
`HASH_LIST` snapshot and the `CUSTOM_PATHS` concurrent map (an association
list here).  `CUSTOM_PATHS` is declared in `src/hash_list.rs` and never
written anywhere in the sources. -/
structure GlobalState where
  hash_list : HashList
  custom_paths : List (RuntimeID × String)
deriving DecidableEq, Repr

/-- `RuntimeID::from_path` as a state transformer over the process-wide
state: the source function only computes the truncated MD5 hash and reads or
writes no global, so the state passes through unchanged. -/
def fromPathCall (path : String) (st : GlobalState) : RuntimeID × GlobalState :=
  (RuntimeID.from_path path, st)

/-- One entry of the RPKG reference table (`RpkgResourceReference`):
hex-string hash and hex-string flag byte. -/
structure RpkgResourceReference where
  hash : String
  flag : String
deriving DecidableEq, Repr

/-- The RPKG `.meta` record (`RpkgResourceMeta` in `src/rpkg_tool.rs`). -/
structure RpkgResourceMeta where
  hash_offset : Nat
  hash_reference_data : List RpkgResourceReference
  hash_reference_table_dummy : Nat
  hash_reference_table_size : Nat
  hash_resource_type : String
  hash_size : Nat
  hash_size_final : Nat
  hash_size_in_memory : Nat
  hash_size_in_video_memory : Nat
  hash_value : String
  hash_path : Option String
deriving DecidableEq, Repr

/-- The error of the RPKG codec (`RpkgInteropError`). -/
inductive RpkgInteropError
  | seek
  | invalidNumber
  | invalidHex (e : ParseIntErr)
  | invalidResourceID (e : RuntimeIDFromStrError)
deriving DecidableEq, Repr

/-- `cursor.read_exact` on a byte list: return the next `n` bytes and the
remainder, or fail with a `Seek` error when fewer than `n` bytes remain. -/
def readExact (n : Nat) (bs : List Nat) :
    Except RpkgInteropError (List Nat × List Nat) :=
  if n ≤ bs.length then .ok (bs.take n, bs.drop n) else .error .seek

/-- The two sized read loops of `from_binary` (`for _ in 0..count`): read
`k` consecutive `width`-byte groups. -/
def readGroups (k width : Nat) (bs : List Nat) :
    Except RpkgInteropError (List (List Nat) × List Nat) :=
  match k with
  | 0 => .ok ([], bs)
  | k + 1 => do
    let (x, rest) ← readExact width bs
    let (xs, rest') ← readGroups k width rest
    pure (x :: xs, rest')

/-- `RpkgResourceMeta::from_binary`: strict sequential decode of the fixed
44-byte prefix, then, when the stored reference-table size is nonzero, the
masked reference count followed by the flag-byte array and the id array. -/
def RpkgResourceMeta.from_binary (content : List Nat) :
    Except RpkgInteropError RpkgResourceMeta := do
  let (b1, r1) ← readExact 8 content
  let hash_value := hex16 (fromLEBytes b1)
  let (b2, r2) ← readExact 8 r1
  let hash_offset := fromLEBytes b2
  let (b3, r3) ← readExact 4 r2
  let hash_size := fromLEBytes b3
  let (b4, r4) ← readExact 4 r3
  let hash_resource_type := utf8LossyDecode b4
  let (b5, r5) ← readExact 4 r4
  let hash_reference_table_size := fromLEBytes b5
  let (b6, r6) ← readExact 4 r5
  let hash_reference_table_dummy := fromLEBytes b6
  let (b7, r7) ← readExact 4 r6
  let hash_size_final := fromLEBytes b7
  let (b8, r8) ← readExact 4 r7
  let hash_size_in_memory := fromLEBytes b8
  let (b9, r9) ← readExact 4 r8
  let hash_size_in_video_memory := fromLEBytes b9
  let dependencies ←
    if hash_reference_table_size ≠ 0 then do
      let (bc, r10) ← readExact 4 r9
      let hash_reference_count := fromLEBytes bc &&& 0x3FFFFFFF
      let (flags, r11) ← readGroups hash_reference_count 1 r10
      let (refs, _) ← readGroups hash_reference_count 8 r11
      pure ((flags.zip refs).map fun fr =>
        ({ hash := hex16 (fromLEBytes fr.2)
         , flag := hexUpper (fromLEBytes fr.1) } : RpkgResourceReference))
    else
      pure []
  pure
    { hash_offset := hash_offset
    , hash_reference_data := dependencies
    , hash_reference_table_dummy := hash_reference_table_dummy
    , hash_reference_table_size := hash_reference_table_size
    , hash_resource_type := hash_resource_type
    , hash_size := hash_size
    , hash_size_final := hash_size_final
    , hash_size_in_memory := hash_size_in_memory
    , hash_size_in_video_memory := hash_size_in_video_memory
    , hash_value := hash_value
    , hash_path := none }

/-- The flag-byte encode loop of `to_binary`: each reference's `flag` string
parsed as a hexadecimal `u8`. -/
def encodeFlagBytes : List RpkgResourceReference →
    Except RpkgInteropError (List Nat)
  | [] => .ok []
  | r :: rest => do
    let b ←
      match u8FromStrRadix16 r.flag with
      | .ok b => pure b
      | .error e => throw (RpkgInteropError.invalidHex e)
    let bs ← encodeFlagBytes rest
    pure (b :: bs)

/-- The id encode loop of `to_binary`: each reference's `hash` string
through `RuntimeID::from_any`, then its value as 8 little-endian bytes. -/
def encodeRefIDBytes : List RpkgResourceReference →
    Except RpkgInteropError (List Nat)
  | [] => .ok []
  | r :: rest => do
    let id ←
      match RuntimeID.from_any r.hash with
      | .ok id => pure id
      | .error e => throw (RpkgInteropError.invalidResourceID e)
    let bs ← encodeRefIDBytes rest
    pure (toLEBytes 8 id.val ++ bs)

/-- `RpkgResourceMeta::to_binary`: the id through `RuntimeID::from_any`, the
fixed prefix with the reference-table size recomputed from the current
reference list (`4 + 9 * N`, `0` when there are no references; `hash_path`
is never serialised), then the marked count, flag bytes and id bytes. -/
def RpkgResourceMeta.to_binary (m : RpkgResourceMeta) :
    Except RpkgInteropError (List Nat) := do
  let id ←
    match RuntimeID.from_any m.hash_value with
    | .ok id => pure id
    | .error e => throw (RpkgInteropError.invalidResourceID e)
  let sizeField ←
    if m.hash_reference_data.isEmpty then
      pure ([0, 0, 0, 0] : List Nat)
    else
      if m.hash_reference_data.length * 9 + 4 ≤ 0xFFFFFFFF then
        pure (toLEBytes 4 (m.hash_reference_data.length * 9 + 4))
      else
        throw RpkgInteropError.invalidNumber
  let base :=
    toLEBytes 8 id.val ++ toLEBytes 8 m.hash_offset ++
    toLEBytes 4 m.hash_size ++ strBytes m.hash_resource_type ++
    sizeField ++ toLEBytes 4 m.hash_reference_table_dummy ++
    toLEBytes 4 m.hash_size_final ++ toLEBytes 4 m.hash_size_in_memory ++
    toLEBytes 4 m.hash_size_in_video_memory
  if m.hash_reference_data.isEmpty then
    pure base
  else do
    let count ←
      if m.hash_reference_data.length ≤ 0xFFFFFFFF then
        pure m.hash_reference_data.length
      else
        throw RpkgInteropError.invalidNumber
    let flagBytes ← encodeFlagBytes m.hash_reference_data
    let idBytes ← encodeRefIDBytes m.hash_reference_data
    pure (base ++ toLEBytes 4 (count ||| 0xC0000000) ++ flagBytes ++ idBytes)

end HitmanCommons


namespace HitmanCommons

theorem exceptBindOk {α β ε : Type} (a : α) (f : α → Except ε β) :
    (Except.ok (ε := ε) a >>= f) = f a := rfl

theorem length_toLEBytes (n v : Nat) : (toLEBytes n v).length = n := by
  induction n generalizing v with
  | zero => rfl
  | succ k ih => simp [toLEBytes, ih]

theorem toLEBytes_mem_lt (n v : Nat) : ∀ b ∈ toLEBytes n v, b < 256 := by
  induction n generalizing v with
  | zero => simp [toLEBytes]
  | succ k ih =>
    intro b hb
    simp only [toLEBytes, List.mem_cons] at hb
    rcases hb with h | h
    · subst h
      exact Nat.mod_lt _ (by omega)
    · exact ih _ _ h

theorem fromLEBytes_toLEBytes (n v : Nat) (h : v < 256 ^ n) :
    fromLEBytes (toLEBytes n v) = v := by
  induction n generalizing v with
  | zero =>
    simp [toLEBytes, fromLEBytes]
    simp [Nat.pow_zero] at h
    omega
  | succ k ih =>
    have hdiv : v / 256 < 256 ^ k := by
      rw [Nat.div_lt_iff_lt_mul (by omega)]
      calc v < 256 ^ (k + 1) := h
        _ = 256 ^ k * 256 := by ring
    simp only [toLEBytes, fromLEBytes, List.foldr_cons]
    have heq : (toLEBytes k (v / 256)).foldr (fun b acc => acc * 256 + b) 0 =
        fromLEBytes (toLEBytes k (v / 256)) := rfl
    rw [heq, ih _ hdiv]
    omega

theorem readExact_append (n : Nat) (xs ys : List Nat) (h : xs.length = n) :
    readExact n (xs ++ ys) = .ok (xs, ys) := by
  subst h
  simp [readExact, List.take_left, List.drop_left]

theorem readGroups_append (w : Nat) (xss : List (List Nat)) (rest : List Nat)
    (h : ∀ x ∈ xss, x.length = w) :
    readGroups xss.length w (xss.flatten ++ rest) = .ok (xss, rest) := by
  induction xss with
  | nil => simp [readGroups]
  | cons x xs ih =>
    simp only [List.length_cons, List.flatten_cons, List.append_assoc, readGroups]
    rw [readExact_append _ _ _ (h x (by simp))]
    rw [exceptBindOk]
    rw [ih (fun y hy => h y (by simp [hy]))]
    rfl

theorem hexDigitChar_eventually (k : Nat) : hexDigitChar (k + 16) = 'F' := rfl

theorem hexDigitChar_ascii (d : Nat) : (hexDigitChar d).toNat < 0x80 := by
  by_cases h : d < 16
  · interval_cases d <;> decide
  · obtain ⟨k, rfl⟩ : ∃ k, d = k + 16 := ⟨d - 16, by omega⟩
    rw [hexDigitChar_eventually]
    decide

theorem hexCharVal_hexDigitChar (d : Nat) (h : d < 16) :
    hexCharVal (hexDigitChar d) = some d := by
  interval_cases d <;> decide

theorem charEq_of_toNat_eq {c d : Char} (h : c.toNat = d.toNat) : c = d := by
  have hc := congrArg Char.ofNat h
  rwa [Char.ofNat_toNat, Char.ofNat_toNat] at hc

theorem asciiUpperChar_of_hexVal {c : Char} {d : Nat}
    (h : hexCharVal c = some d) : asciiUpperChar c = hexDigitChar d ∧ d < 16 := by
  unfold hexCharVal at h
  split at h
  · rename_i hr
    injection h with h
    subst h
    obtain ⟨h1, h2⟩ := hr
    refine ⟨?_, by omega⟩
    unfold asciiUpperChar
    rw [if_neg (by omega)]
    apply charEq_of_toNat_eq
    interval_cases hcn : c.toNat <;> decide
  · split at h
    · rename_i hne hr
      injection h with h
      subst h
      obtain ⟨h1, h2⟩ := hr
      refine ⟨?_, by omega⟩
      unfold asciiUpperChar
      rw [if_pos (by omega)]
      apply charEq_of_toNat_eq
      interval_cases hcn : c.toNat <;> decide
    · split at h
      · rename_i hne1 hne2 hr
        injection h with h
        subst h
        obtain ⟨h1, h2⟩ := hr
        refine ⟨?_, by omega⟩
        unfold asciiUpperChar
        rw [if_neg (by omega)]
        apply charEq_of_toNat_eq
        interval_cases hcn : c.toNat <;> decide
      · exact absurd h (by simp)

end HitmanCommons

namespace HitmanCommons

/-- Proof-side helper: exactly `L` hexadecimal digits of `v`, most
significant first (digits beyond `L` discarded). -/
def fixedHex (L v : Nat) : List Char :=
  match L with
  | 0 => []
  | L + 1 => fixedHex L (v / 16) ++ [hexDigitChar (v % 16)]

theorem fixedHex_zero (L : Nat) : fixedHex L 0 = List.replicate L '0' := by
  induction L with
  | zero => rfl
  | succ k ih =>
    rw [fixedHex, Nat.zero_div, Nat.zero_mod, ih, List.replicate_succ']
    rfl

theorem natToHexAux_irrel (f1 : Nat) : ∀ f2 n, n < f1 → n < f2 →
    natToHexAux f1 n = natToHexAux f2 n := by
  induction f1 with
  | zero => omega
  | succ g1 ih =>
    intro f2 n h1 h2
    obtain ⟨g2, rfl⟩ : ∃ g2, f2 = g2 + 1 := ⟨f2 - 1, by omega⟩
    by_cases hn : n < 16
    · simp [natToHexAux, if_pos hn]
    · simp only [natToHexAux, if_neg hn]
      have hd : n / 16 < n := Nat.div_lt_self (by omega) (by omega)
      rw [ih g2 (n / 16) (by omega) (by omega)]

theorem natToHex_lt (n : Nat) (h : n < 16) : natToHex n = [hexDigitChar n] := by
  show natToHexAux (n + 1) n = _
  rw [natToHexAux, if_pos h]

theorem natToHex_ge (n : Nat) (h : ¬n < 16) :
    natToHex n = natToHex (n / 16) ++ [hexDigitChar (n % 16)] := by
  show natToHexAux (n + 1) n = natToHexAux (n / 16 + 1) (n / 16) ++ _
  rw [natToHexAux, if_neg h]
  congr 1
  have hd : n / 16 < n := Nat.div_lt_self (by omega) (by omega)
  exact natToHexAux_irrel n (n / 16 + 1) (n / 16) (by omega) (by omega)

theorem natToHex_length_pos (n : Nat) : 1 ≤ (natToHex n).length := by
  by_cases h : n < 16
  · simp [natToHex_lt n h]
  · simp [natToHex_ge n h]

theorem natToHex_length_le (n k : Nat) (hk : 1 ≤ k) (h : n < 16 ^ k) :
    (natToHex n).length ≤ k := by
  induction n using Nat.strong_induction_on generalizing k with
  | _ n ih =>
    by_cases hn : n < 16
    · simp [natToHex_lt n hn]
      omega
    · rw [natToHex_ge n hn]
      have hk2 : 2 ≤ k := by
        by_contra hcon
        have : k = 1 := by omega
        subst this
        simp at h
        omega
      have hdiv : n / 16 < 16 ^ (k - 1) := by
        rw [Nat.div_lt_iff_lt_mul (by omega)]
        calc n < 16 ^ k := h
          _ = 16 ^ (k - 1) * 16 := by
            rw [← Nat.pow_succ]
            congr 1
            omega
      have := ih (n / 16) (Nat.div_lt_self (by omega) (by omega)) (k - 1)
        (by omega) hdiv
      simp only [List.length_append, List.length_cons, List.length_nil]
      omega

theorem natToHex_digits (n : Nat) :
    ∀ c ∈ natToHex n, ∃ d, d < 16 ∧ c = hexDigitChar d := by
  induction n using Nat.strong_induction_on with
  | _ n ih =>
    by_cases hn : n < 16
    · rw [natToHex_lt n hn]
      intro c hc
      simp at hc
      exact ⟨n, hn, hc⟩
    · rw [natToHex_ge n hn]
      intro c hc
      rw [List.mem_append] at hc
      rcases hc with hc | hc
      · exact ih (n / 16) (Nat.div_lt_self (by omega) (by omega)) c hc
      · simp at hc
        exact ⟨n % 16, Nat.mod_lt _ (by omega), hc⟩

theorem replicate_pad_eq_fixedHex (L n : Nat) (h : n < 16 ^ L) (hL : 1 ≤ L) :
    List.replicate (L - (natToHex n).length) '0' ++ natToHex n = fixedHex L n := by
  induction L generalizing n with
  | zero => omega
  | succ k ihL =>
    by_cases hn : n < 16
    · rw [natToHex_lt n hn, fixedHex, Nat.div_eq_of_lt hn, Nat.mod_eq_of_lt hn,
        fixedHex_zero]
      simp
    · have hk1 : 1 ≤ k := by
        by_contra hcon
        have : k = 0 := by omega
        subst this
        simp at h
        omega
      have hdiv : n / 16 < 16 ^ k := by
        rw [Nat.div_lt_iff_lt_mul (by omega)]
        calc n < 16 ^ (k + 1) := h
          _ = 16 ^ k * 16 := by ring
      rw [natToHex_ge n hn, fixedHex, ← ihL (n / 16) hdiv hk1]
      have hlen : (natToHex (n / 16)).length + 1 ≤ k + 1 := by
        have := natToHex_length_le (n / 16) k hk1 hdiv
        omega
      simp only [List.length_append, List.length_cons, List.length_nil]
      rw [← List.append_assoc]
      congr 2
      congr 1
      omega

theorem parseHexAcc_snoc (xs : List Char) (c : Char) (a : Nat) :
    parseHexAcc (xs ++ [c]) a =
      (parseHexAcc xs a).bind fun p => (hexCharVal c).map fun d => p * 16 + d := by
  induction xs generalizing a with
  | nil =>
    simp only [List.nil_append, parseHexAcc]
    cases hexCharVal c <;> simp [parseHexAcc]
  | cons x xs ih =>
    simp only [List.cons_append, parseHexAcc]
    cases hexCharVal x <;> simp [ih]

theorem parseHexAcc_natToHex (n : Nat) : parseHexAcc (natToHex n) 0 = some n := by
  induction n using Nat.strong_induction_on with
  | _ n ih =>
    by_cases hn : n < 16
    · rw [natToHex_lt n hn]
      simp [parseHexAcc, hexCharVal_hexDigitChar n hn]
    · rw [natToHex_ge n hn, parseHexAcc_snoc,
        ih (n / 16) (Nat.div_lt_self (by omega) (by omega)),
        hexCharVal_hexDigitChar (n % 16) (Nat.mod_lt _ (by omega))]
      simp
      omega

theorem parseHexAcc_replicate_zero (k : Nat) (cs : List Char) :
    parseHexAcc (List.replicate k '0' ++ cs) 0 = parseHexAcc cs 0 := by
  induction k with
  | zero => rfl
  | succ m ih =>
    rw [List.replicate_succ, List.cons_append]
    show parseHexAcc _ _ = _
    have h0 : hexCharVal '0' = some 0 := by decide
    simp only [parseHexAcc, h0]
    simpa using ih

theorem parseHexAcc_bound (cs : List Char) (a v : Nat)
    (h : parseHexAcc cs a = some v) : v < (a + 1) * 16 ^ cs.length := by
  induction cs generalizing a with
  | nil =>
    simp [parseHexAcc] at h
    subst h
    simp
  | cons c rest ih =>
    simp only [parseHexAcc] at h
    cases hc : hexCharVal c with
    | none => rw [hc] at h; exact absurd h (by simp)
    | some d =>
      rw [hc] at h
      have hd : d < 16 := by
        unfold hexCharVal at hc
        split at hc
        · injection hc with hc; omega
        · split at hc
          · injection hc with hc; omega
          · split at hc
            · injection hc with hc; omega
            · exact absurd hc (by simp)
      have hb := ih _ h
      have hle : (a * 16 + d + 1) * 16 ^ rest.length ≤
          (a + 1) * 16 ^ (rest.length + 1) := by
        rw [Nat.pow_succ]
        calc (a * 16 + d + 1) * 16 ^ rest.length
            ≤ ((a + 1) * 16) * 16 ^ rest.length :=
              Nat.mul_le_mul_right _ (by omega)
          _ = (a + 1) * (16 ^ rest.length * 16) := by ring
      simp only [List.length_cons]
      calc v < (a * 16 + d + 1) * 16 ^ rest.length := hb
        _ ≤ (a + 1) * 16 ^ (rest.length + 1) := hle

end HitmanCommons

namespace HitmanCommons

theorem fixedHex_of_parse (cs : List Char) (v : Nat)
    (h : parseHexAcc cs 0 = some v) :
    fixedHex cs.length v = cs.map asciiUpperChar := by
  induction cs using List.reverseRecOn generalizing v with
  | nil =>
    simp [parseHexAcc] at h
    subst h
    rfl
  | append_singleton xs c ih =>
    rw [parseHexAcc_snoc] at h
    cases hxs : parseHexAcc xs 0 with
    | none =>
      rw [hxs] at h
      exact absurd h (by simp)
    | some p =>
      rw [hxs] at h
      cases hc : hexCharVal c with
      | none =>
        rw [hc] at h
        exact absurd h (by simp)
      | some d =>
        rw [hc] at h
        simp only [Option.bind_some, Option.map_some'] at h
        injection h with h
        subst h
        obtain ⟨hup, hd16⟩ := asciiUpperChar_of_hexVal hc
        simp only [List.length_append, List.length_cons, List.length_nil,
          List.map_append, List.map_cons, List.map_nil]
        rw [fixedHex]
        have hdivq : (p * 16 + d) / 16 = p := by omega
        have hmodq : (p * 16 + d) % 16 = d := by omega
        rw [hdivq, hmodq, ih _ hxs, hup]

theorem hex16_data_eq_fixedHex (n : Nat) (h : n < 16 ^ 16) :
    (hex16 n).data = fixedHex 16 n :=
  replicate_pad_eq_fixedHex 16 n h (by omega)

theorem hex16_head_zero (v : Nat) (hv : v < 16 ^ 14) :
    (hex16 v).data = '0' ::
      (List.replicate (15 - (natToHex v).length) '0' ++ natToHex v) := by
  have hlen := natToHex_length_le v 14 (by omega) hv
  show List.replicate (16 - (natToHex v).length) '0' ++ natToHex v = _
  rw [show 16 - (natToHex v).length = (15 - (natToHex v).length) + 1 by omega,
    List.replicate_succ, List.cons_append]

theorem hex16_chars (n : Nat) :
    ∀ c ∈ (hex16 n).data, ∃ d, d < 16 ∧ c = hexDigitChar d := by
  intro c hc
  rcases List.mem_append.mp hc with h | h
  · rw [List.eq_of_mem_replicate h]
    exact ⟨0, by omega, rfl⟩
  · exact natToHex_digits n c h

theorem hexVal_isSome_ascii {c : Char} (h : (hexCharVal c).isSome) :
    c.toNat < 0x80 := by
  unfold hexCharVal at h
  split at h
  · omega
  · split at h
    · omega
    · split at h
      · omega
      · simp at h

theorem utf8EncodeChar_ascii (c : Char) (h : c.toNat < 0x80) :
    utf8EncodeChar c = [c.toNat] := by
  unfold utf8EncodeChar
  rw [if_pos h]

theorem strBytes_ascii (l : List Char) (h : ∀ c ∈ l, c.toNat < 0x80) :
    strBytes ⟨l⟩ = l.map Char.toNat := by
  induction l with
  | nil => rfl
  | cons c cs ih =>
    have hc := h c (by simp)
    have hcs : ∀ x ∈ cs, x.toNat < 0x80 := fun x hx => h x (by simp [hx])
    show ((c :: cs).map utf8EncodeChar).flatten = _
    simp only [List.map_cons, List.flatten_cons]
    rw [utf8EncodeChar_ascii c hc]
    have : (cs.map utf8EncodeChar).flatten = strBytes ⟨cs⟩ := rfl
    rw [this, ih hcs]
    rfl

theorem utf8Lossy_ascii (bs : List Nat) (h : ∀ b ∈ bs, b < 0x80) :
    utf8Lossy bs = bs.map Char.ofNat := by
  induction bs with
  | nil => rfl
  | cons b rest ih =>
    show utf8LossyAux (rest.length + 1) (b :: rest) = _
    rw [utf8LossyAux.eq_def]
    simp only
    rw [if_pos (h b (by simp))]
    have hrest : utf8LossyAux rest.length rest = utf8Lossy rest := rfl
    rw [hrest, ih (fun x hx => h x (by simp [hx]))]
    rfl

theorem map_ofNat_toNat (l : List Char) :
    (l.map Char.toNat).map Char.ofNat = l := by
  induction l with
  | nil => rfl
  | cons c cs ih => simp [Char.ofNat_toNat, ih]

theorem lossy_strBytes_ascii (s : String)
    (h : ∀ c ∈ s.data, c.toNat < 0x80) :
    utf8LossyDecode (strBytes s) = s := by
  unfold utf8LossyDecode
  have h1 : strBytes s = s.data.map Char.toNat := strBytes_ascii s.data h
  rw [h1, utf8Lossy_ascii _ (by
    intro b hb
    rw [List.mem_map] at hb
    obtain ⟨c, hc, rfl⟩ := hb
    exact h c hc)]
  rw [map_ofNat_toNat]

theorem u64Radix_eq_of_data (s : String) (c : Char) (rest : List Char)
    (hd : s.data = c :: rest) :
    u64FromStrRadix16 s =
      (let digits := if c = '+' then rest else c :: rest
       if digits.isEmpty then .error .invalidDigit
       else
         match parseHexAcc digits 0 with
         | none => .error .invalidDigit
         | some v => if v < 2 ^ 64 then .ok v else .error .posOverflow) := by
  unfold u64FromStrRadix16
  rw [hd]

theorem u8Radix_eq_of_data (s : String) (c : Char) (rest : List Char)
    (hd : s.data = c :: rest) :
    u8FromStrRadix16 s =
      (let digits := if c = '+' then rest else c :: rest
       if digits.isEmpty then .error .invalidDigit
       else
         match parseHexAcc digits 0 with
         | none => .error .invalidDigit
         | some v => if v < 256 then .ok v else .error .posOverflow) := by
  unfold u8FromStrRadix16
  rw [hd]

theorem u64Radix_of_digits (s : String) (c : Char) (rest : List Char) (v : Nat)
    (hd : s.data = c :: rest)
    (hcplus : c ≠ '+')
    (hp : parseHexAcc s.data 0 = some v)
    (hv : v < 2 ^ 64) :
    u64FromStrRadix16 s = .ok v := by
  rw [u64Radix_eq_of_data s c rest hd]
  simp only [if_neg hcplus]
  rw [if_neg (by simp)]
  rw [← hd, hp]
  have hv2 : v < 18446744073709551616 := by omega
  simp [hv2]

theorem u8Radix_of_digits (s : String) (c : Char) (rest : List Char) (v : Nat)
    (hd : s.data = c :: rest)
    (hcplus : c ≠ '+')
    (hp : parseHexAcc s.data 0 = some v)
    (hv : v < 256) :
    u8FromStrRadix16 s = .ok v := by
  rw [u8Radix_eq_of_data s c rest hd]
  simp only [if_neg hcplus]
  rw [if_neg (by simp)]
  rw [← hd, hp]
  simp [hv]

theorem parseHexAcc_hex16 (v : Nat) (hv : v < 16 ^ 14) :
    parseHexAcc (hex16 v).data 0 = some v := by
  rw [hex16_head_zero v hv, ← List.cons_append, ← List.replicate_succ,
    parseHexAcc_replicate_zero, parseHexAcc_natToHex]

theorem strBytes_hex16_length (v : Nat) (hv : v < 16 ^ 14) :
    (strBytes (hex16 v)).length = 16 := by
  have hascii : ∀ c ∈ (hex16 v).data, c.toNat < 0x80 := by
    intro c hc
    obtain ⟨d, _, rfl⟩ := hex16_chars v c hc
    exact hexDigitChar_ascii d
  have h1 : strBytes (hex16 v) = (hex16 v).data.map Char.toNat :=
    strBytes_ascii (hex16 v).data hascii
  rw [h1, List.length_map]
  show (List.replicate (16 - (natToHex v).length) '0' ++ natToHex v).length = 16
  have hlen := natToHex_length_le v 14 (by omega) hv
  simp only [List.length_append, List.length_replicate]
  omega

theorem from_str_hex16 (v : Nat) (hv : v < 0x00FFFFFFFFFFFFFF) :
    RuntimeID.from_str (hex16 v) = .ok ⟨v⟩ := by
  have hv14 : v < 16 ^ 14 := by
    have : (16 : Nat) ^ 14 = 0x100000000000000 := by norm_num
    omega
  unfold RuntimeID.from_str
  rw [if_neg (by rw [strBytes_hex16_length v hv14]; omega)]
  rw [u64Radix_of_digits (hex16 v) '0'
    (List.replicate (15 - (natToHex v).length) '0' ++ natToHex v) v
    (hex16_head_zero v hv14) (by decide) (parseHexAcc_hex16 v hv14)
    (by
      have : (16 : Nat) ^ 14 ≤ 2 ^ 64 := by norm_num
      omega)]
  simp [RuntimeID.try_from, hv]

theorem from_any_hex16 (v : Nat) (hv : v < 0x00FFFFFFFFFFFFFF) :
    RuntimeID.from_any (hex16 v) = .ok ⟨v⟩ := by
  have hv14 : v < 16 ^ 14 := by
    have : (16 : Nat) ^ 14 = 0x100000000000000 := by norm_num
    omega
  unfold RuntimeID.from_any
  rw [if_pos (by rw [hex16_head_zero v hv14]; rfl)]
  exact from_str_hex16 v hv

end HitmanCommons

namespace HitmanCommons

theorem runtimeID_val_ext {a b : RuntimeID} (h : a.val = b.val) : a = b := by
  cases a
  cases b
  simpa using h

theorem md5_bytes_lt (msg : List Nat) : ∀ b ∈ Md5.md5 msg, b < 256 := by
  intro b hb
  unfold Md5.md5 at hb
  simp only [Md5.wordLE, List.mem_append, List.mem_cons,
    List.not_mem_nil, or_false] at hb
  rcases hb with (h | h | h | h) | (h | h | h | h) |
    (h | h | h | h) | (h | h | h | h) <;> omega

theorem getD_lt_256 (l : List Nat) (hall : ∀ b ∈ l, b < 256) (i : Nat) :
    l.getD i 0 < 256 := by
  by_cases hi : i < l.length
  · rw [List.getD_eq_getElem l 0 hi]
    exact hall _ (List.getElem_mem hi)
  · rw [List.getD_eq_default l 0 (by omega)]
    omega

theorem from_path_val_lt (path : String) :
    (RuntimeID.from_path path).val < 0x0100000000000000 := by
  unfold RuntimeID.from_path
  have hr : List.range' 1 7 = [1, 2, 3, 4, 5, 6, 7] := rfl
  rw [hr]
  simp only [List.foldl_cons, List.foldl_nil]
  have hd : ∀ i, (Md5.md5 (strBytes (asciiLower path))).getD i 0 < 256 :=
    fun i => getD_lt_256 _ (md5_bytes_lt _) i
  have hstep : ∀ (i s : Nat), s ≤ 48 →
      (Md5.md5 (strBytes (asciiLower path))).getD i 0 <<< s < 2 ^ 56 := by
    intro i s hs
    rw [Nat.shiftLeft_eq]
    calc (Md5.md5 (strBytes (asciiLower path))).getD i 0 * 2 ^ s
        < 256 * 2 ^ s := by
          have := hd i
          exact (Nat.mul_lt_mul_right (Nat.two_pow_pos s)).mpr (by omega)
      _ = 2 ^ (8 + s) := by rw [Nat.pow_add]
      _ ≤ 2 ^ 56 := Nat.pow_le_pow_right (by omega) (by omega)
  show _ < 2 ^ 56
  refine Nat.or_lt_two_pow (Nat.or_lt_two_pow (Nat.or_lt_two_pow
    (Nat.or_lt_two_pow (Nat.or_lt_two_pow (Nat.or_lt_two_pow
      (Nat.or_lt_two_pow (by norm_num) (hstep 1 (8 * (7 - 1)) (by norm_num)))
      (hstep 2 (8 * (7 - 2)) (by norm_num))) (hstep 3 (8 * (7 - 3)) (by norm_num)))
    (hstep 4 (8 * (7 - 4)) (by norm_num))) (hstep 5 (8 * (7 - 5)) (by norm_num)))
    (hstep 6 (8 * (7 - 6)) (by norm_num))) (hstep 7 (8 * (7 - 7)) (by norm_num))

/-- C1 counterexample: the flag byte `0b11000000` does not decode via
`from_any` to the modern interpretation `{Weak, acquired = false,
language = 0}`; install-dependency together with media-streamed is not one
of the contradictions `from_any` tests for, so the byte stays legacy. -/
theorem claimC1_counterexample :
    ReferenceFlags.from_any 0b11000000 ≠
      { reference_type := .weak, acquired := false, language_code := 0 } := by
  decide

/-- C1 (amended): `from_any` decodes the flag byte `0b11000000` as legacy
(the tested legacy contradictions are install+weak and any two of
media/state/entity-type; install+media is not among them), yielding
`{Install, acquired = false, language = 0x1F}`; even under `from_modern`
the byte would decode to `Normal` (the `0b11` kind pattern falls to the
default arm), not `Weak`. -/
theorem claimC1_from_any_0xC0_is_legacy :
    ReferenceFlags.from_any 0b11000000 = ReferenceFlags.from_legacy 0b11000000 ∧
    ReferenceFlags.from_legacy 0b11000000 =
      { reference_type := .install, acquired := false, language_code := 0x1F } ∧
    ReferenceFlags.from_modern 0b11000000 =
      { reference_type := .normal, acquired := false, language_code := 0 } := by
  refine ⟨rfl, by decide, by decide⟩

/-- C3 counterexample: `RuntimeID::from_path` performs no insertion into
`CUSTOM_PATHS`.  Starting from an empty `HASH_LIST` (so the computed id is
certainly not a catalogue key, the situation in which the claim requires an
insert) and an empty custom-path cache, the cache after the call is still
empty and in particular does not contain the pair the claim requires. -/
theorem claimC3_counterexample :
    (fromPathCall "[assembly:/some/custom.brick].pc_entitytype"
        ⟨⟨0, []⟩, []⟩).2.custom_paths = [] ∧
    ((fromPathCall "[assembly:/some/custom.brick].pc_entitytype"
        ⟨⟨0, []⟩, []⟩).1,
      "[assembly:/some/custom.brick].pc_entitytype") ∉
      (fromPathCall "[assembly:/some/custom.brick].pc_entitytype"
        ⟨⟨0, []⟩, []⟩).2.custom_paths := by
  exact ⟨rfl, List.not_mem_nil _⟩

/-- C3 (amended): `RuntimeID::from_path` is total and infallible but has no
side effect at all: it leaves the process-wide state (both `HASH_LIST` and
`CUSTOM_PATHS`) exactly unchanged — the source never touches `CUSTOM_PATHS`,
which is declared but never written anywhere in the repository — and its
result is always an in-range identifier (low 56 bits only). -/
theorem claimC3_from_path_pure (path : String) (st : GlobalState) :
    (fromPathCall path st).2 = st ∧
    (fromPathCall path st).1 = RuntimeID.from_path path ∧
    (RuntimeID.from_path path).val < 0x0100000000000000 :=
  ⟨rfl, rfl, from_path_val_lt path⟩

/-- C4 counterexample: with a catalogue that resolves id `1` to a path,
`Display` for `RuntimeID` still renders the sixteen uppercase hex digits,
not the path: the `Display` implementation never consults the catalogue. -/
theorem claimC4_counterexample :
    (HashList.get ⟨7, [(⟨1⟩, ⟨⟨[84, 69, 77, 80]⟩, some "some/path", none⟩)]⟩
        ⟨1⟩).bind HashData.path = some "some/path" ∧
    RuntimeID.display ⟨1⟩ = "0000000000000001" ∧
    ("0000000000000001" : String) ≠ "some/path" := by
  refine ⟨rfl, rfl, by decide⟩

/-- C4 (amended): `Display` for `RuntimeID` always renders exactly the 16
zero-padded uppercase hex digits of the raw value, independent of any
catalogue state (it takes no catalogue input at all), and the rendering is
machine-stable: parsing the displayed string back through `from_str`
returns the same identifier. -/
theorem claimC4_display_is_hex (v : Nat) (hv : v < 0x00FFFFFFFFFFFFFF) :
    RuntimeID.display ⟨v⟩ = hex16 v ∧
    RuntimeID.from_str (RuntimeID.display ⟨v⟩) = .ok ⟨v⟩ :=
  ⟨rfl, from_str_hex16 v hv⟩

theorem claimC4_witness :
    RuntimeID.from_str (RuntimeID.display ⟨1⟩) = .ok ⟨1⟩ :=
  (claimC4_display_is_hex 1 (by norm_num)).2

/-- C6: if either the decompression step or the deserialisation step of
`HashList::load_compressed` fails, the call returns the corresponding typed
error and the live state — version counter and entries map — is exactly
what it was before the call; the stores happen only after both steps
succeed. -/
theorem claimC6_load_error_state_unchanged
    (decompress : List Nat → Except Unit (List Nat))
    (deserialise : List Nat → Except Unit DeserialisedHashList)
    (data : List Nat) (st : HashList) (e : DeserialisationError)
    (h : (HashList.load_compressed decompress deserialise data st).1 = .error e) :
    (HashList.load_compressed decompress deserialise data st).2 = st := by
  unfold HashList.load_compressed at h ⊢
  cases hdec : decompress data with
  | error u => rfl
  | ok dec =>
    cases hdes : deserialise dec with
    | error u =>
      simp only [hdes]
    | ok hl =>
      rw [hdec] at h
      simp only [hdes] at h
      simp at h

theorem claimC6_witness :
    (HashList.load_compressed (fun _ => .error ()) (fun _ => .error ()) []
        ⟨3, [(⟨1⟩, ⟨⟨[84, 69, 77, 80]⟩, none, none⟩)]⟩).2 =
      ⟨3, [(⟨1⟩, ⟨⟨[84, 69, 77, 80]⟩, none, none⟩)]⟩ :=
  claimC6_load_error_state_unchanged (fun _ => .error ()) (fun _ => .error ())
    [] ⟨3, [(⟨1⟩, ⟨⟨[84, 69, 77, 80]⟩, none, none⟩)]⟩ .decompressionFailed rfl

/-- C7: for every `u64` value `v`, `RuntimeID::try_from(v)` succeeds with
exactly the wrapped value iff `v < 0x00FFFFFFFFFFFFFF`, and returns the
`TooHigh` error otherwise. -/
theorem claimC7_try_from_range (v : Nat) (hv : v < 2 ^ 64) :
    (v < 0x00FFFFFFFFFFFFFF → RuntimeID.try_from v = .ok ⟨v⟩) ∧
    (0x00FFFFFFFFFFFFFF ≤ v → RuntimeID.try_from v = .error .tooHigh) := by
  constructor
  · intro h
    unfold RuntimeID.try_from
    rw [if_pos h]
  · intro h
    unfold RuntimeID.try_from
    rw [if_neg (by omega)]

theorem claimC7_witness :
    RuntimeID.try_from 3 = .ok ⟨3⟩ ∧
    RuntimeID.try_from 0xFFFFFFFFFFFFFFFF = .error .tooHigh :=
  ⟨(claimC7_try_from_range 3 (by norm_num)).1 (by norm_num),
   (claimC7_try_from_range 0xFFFFFFFFFFFFFFFF (by norm_num)).2 (by norm_num)⟩

/-- C9 counterexample: the legacy round-trip fails for a flags value with
kind `Install` but a non-default language code: the legacy byte carries no
language code, so `from_legacy` always restores `0x1F`. -/
theorem claimC9_counterexample :
    (ReferenceFlags.mk .install false 0).reference_type = .install ∧
    ReferenceFlags.from_legacy
        (ReferenceFlags.as_legacy ⟨.install, false, 0⟩) ≠
      ⟨.install, false, 0⟩ := by
  refine ⟨rfl, by decide⟩

/-- C9 (amended): for every flags value whose kind is Install, Normal or
Weak and whose language code is the legacy-implied `0x1F`,
`from_legacy(f.as_legacy()) = f`; the language-code restriction is forced
because the legacy byte stores no language code. -/
theorem claimC9_legacy_roundtrip (f : ReferenceFlags)
    (ht : f.reference_type = .install ∨ f.reference_type = .normal ∨
      f.reference_type = .weak)
    (hl : f.language_code = 0x1F) :
    ReferenceFlags.from_legacy (ReferenceFlags.as_legacy f) = f := by
  obtain ⟨t, a, lc⟩ := f
  subst hl
  rcases ht with rfl | rfl | rfl <;> cases a <;> rfl

theorem claimC9_witness :
    ReferenceFlags.from_legacy
        (ReferenceFlags.as_legacy ⟨.weak, true, 0x1F⟩) = ⟨.weak, true, 0x1F⟩ :=
  claimC9_legacy_roundtrip ⟨.weak, true, 0x1F⟩ (Or.inr (Or.inr rfl)) rfl

/-- C10: `PathedID` equality is computed solely from the underlying
`RuntimeID` — `Path(p)` compares equal to `Unknown(from_path(p))` for every
path — and the `Hash` implementation feeds only the underlying id to the
hasher, so any two `PathedID`s that compare equal hash identically for
every hasher. -/
theorem claimC10_pathedid_eq_hash :
    (∀ p : String,
      PathedID.beq (PathedID.path p)
        (PathedID.unknown (RuntimeID.from_path p)) = true) ∧
    (∀ (β : Type) (h : RuntimeID → β) (x y : PathedID),
      PathedID.beq x y = true →
        PathedID.hashWith h x = PathedID.hashWith h y) := by
  constructor
  · intro p
    show ((RuntimeID.from_path p).val == (RuntimeID.from_path p).val) = true
    simp
  · intro β h x y hbeq
    have hbeq2 : (x.get_id.val == y.get_id.val) = true := hbeq
    have hval : x.get_id.val = y.get_id.val := eq_of_beq hbeq2
    unfold PathedID.hashWith
    rw [runtimeID_val_ext hval]

theorem claimC10_witness :
    PathedID.hashWith (fun r => r.val) (PathedID.path "a") =
      PathedID.hashWith (fun r => r.val)
        (PathedID.unknown (RuntimeID.from_path "a")) :=
  claimC10_pathedid_eq_hash.2 Nat (fun r => r.val) _ _
    (claimC10_pathedid_eq_hash.1 "a")

end HitmanCommons

namespace HitmanCommons

/-- C8 counterexample: `"FFFFFFFFFFFFFFFF"` is a valid 16-hex-digit string
(16 characters, all hexadecimal digits), yet constructing a `RuntimeID`
from it fails with the `TooHigh` range error instead of succeeding. -/
theorem claimC8_counterexample :
    RuntimeID.from_str "FFFFFFFFFFFFFFFF" = .error (.invalidID .tooHigh) ∧
    ("FFFFFFFFFFFFFFFF" : String).data.length = 16 ∧
    ∀ c ∈ ("FFFFFFFFFFFFFFFF" : String).data, (hexCharVal c).isSome := by
  refine ⟨rfl, rfl, by decide⟩

/-- C8 (amended): for every 16-hex-digit string `s` whose numeric value `v`
satisfies the identifier range invariant `v < 0x00FFFFFFFFFFFFFF`,
`from_str` succeeds with exactly `v` and rendering the id back as hex
(`Display`) yields `s` converted to uppercase; strings whose value is out
of range (such as `"FFFFFFFFFFFFFFFF"`) are rejected with `TooHigh`. -/
theorem claimC8_hex_roundtrip (s : String) (v : Nat)
    (h16 : s.data.length = 16)
    (hhex : ∀ c ∈ s.data, (hexCharVal c).isSome)
    (hp : parseHexAcc s.data 0 = some v)
    (hrange : v < 0x00FFFFFFFFFFFFFF) :
    RuntimeID.from_str s = .ok ⟨v⟩ ∧
    RuntimeID.display ⟨v⟩ = asciiUpper s := by
  have hascii : ∀ c ∈ s.data, c.toNat < 0x80 :=
    fun c hc => hexVal_isSome_ascii (hhex c hc)
  have hbytes : (strBytes s).length = 16 := by
    have h1 : strBytes s = s.data.map Char.toNat := strBytes_ascii s.data hascii
    rw [h1, List.length_map, h16]
  obtain ⟨c, rest, hd⟩ : ∃ c rest, s.data = c :: rest := by
    cases hcs : s.data with
    | nil => rw [hcs] at h16; simp at h16
    | cons c r => exact ⟨c, r, rfl⟩
  have hcp : c ≠ '+' := by
    intro he
    have hs := hhex c (by rw [hd]; simp)
    rw [he] at hs
    exact absurd hs (by decide)
  have hv64 : v < 2 ^ 64 := by
    have hb := parseHexAcc_bound s.data 0 v hp
    rw [h16] at hb
    norm_num at hb
    omega
  have hv16 : v < 16 ^ 16 := by
    have : (16 : Nat) ^ 16 = 2 ^ 64 := by norm_num
    omega
  constructor
  · unfold RuntimeID.from_str
    rw [if_neg (by omega)]
    rw [u64Radix_of_digits s c rest v hd hcp hp hv64]
    simp [RuntimeID.try_from, hrange]
  · have hdata : (hex16 v).data = s.data.map asciiUpperChar := by
      rw [hex16_data_eq_fixedHex v hv16, ← h16]
      exact fixedHex_of_parse s.data v hp
    show hex16 v = asciiUpper s
    exact congrArg String.mk hdata

theorem claimC8_witness :
    RuntimeID.from_str "00000000000000ab" = .ok ⟨0xAB⟩ ∧
    RuntimeID.display ⟨0xAB⟩ = asciiUpper "00000000000000ab" :=
  claimC8_hex_roundtrip "00000000000000ab" 0xAB rfl (by decide) rfl
    (by norm_num)

end HitmanCommons

namespace HitmanCommons

/-- C2 counterexample: a 44-byte record whose embedded id
`0xFFFFFFFFFFFFFFFF` fails the `RuntimeID` range check and whose type bytes
`FF FF FF FF` fail the `ResourceType` UTF-8 check still decodes
successfully: `from_binary` formats the id as a bare hex string and decodes
the type bytes lossily, invoking neither constructor. -/
theorem claimC2_counterexample :
    RpkgResourceMeta.from_binary
        (toLEBytes 8 0xFFFFFFFFFFFFFFFF ++ toLEBytes 8 0 ++ toLEBytes 4 0 ++
          [0xFF, 0xFF, 0xFF, 0xFF] ++ toLEBytes 4 0 ++ toLEBytes 4 0 ++
          toLEBytes 4 0 ++ toLEBytes 4 0 ++ toLEBytes 4 0) =
      .ok { hash_offset := 0
          , hash_reference_data := []
          , hash_reference_table_dummy := 0
          , hash_reference_table_size := 0
          , hash_resource_type := ⟨[replChar, replChar, replChar, replChar]⟩
          , hash_size := 0
          , hash_size_final := 0
          , hash_size_in_memory := 0
          , hash_size_in_video_memory := 0
          , hash_value := "FFFFFFFFFFFFFFFF"
          , hash_path := none } ∧
    RuntimeID.from_str "FFFFFFFFFFFFFFFF" = .error (.invalidID .tooHigh) ∧
    ResourceType.try_from_bytes [0xFF, 0xFF, 0xFF, 0xFF] =
      .error .invalidString := by
  refine ⟨rfl, rfl, rfl⟩

/-- C2 (amended): `from_binary` performs no validation of the embedded
identifier or resource type: every 44-byte buffer whose reference-table
size field is zero decodes successfully, with the id rendered as a hex
string without the `RuntimeID` range check and the type bytes decoded
lossily without the `ResourceType` UTF-8/length check; decoding fails only
on short reads.  (Validation through `RuntimeID::from_any` happens on the
encode side, in `to_binary`.) -/
theorem claimC2_from_binary_no_validation (bs : List Nat)
    (hlen : bs.length = 44)
    (htable : fromLEBytes ((bs.drop 24).take 4) = 0) :
    RpkgResourceMeta.from_binary bs =
      .ok { hash_offset := fromLEBytes ((bs.drop 8).take 8)
          , hash_reference_data := []
          , hash_reference_table_dummy := fromLEBytes ((bs.drop 28).take 4)
          , hash_reference_table_size := 0
          , hash_resource_type := utf8LossyDecode ((bs.drop 20).take 4)
          , hash_size := fromLEBytes ((bs.drop 16).take 4)
          , hash_size_final := fromLEBytes ((bs.drop 32).take 4)
          , hash_size_in_memory := fromLEBytes ((bs.drop 36).take 4)
          , hash_size_in_video_memory := fromLEBytes ((bs.drop 40).take 4)
          , hash_value := hex16 (fromLEBytes (bs.take 8))
          , hash_path := none } := by
  have r0 : readExact 8 bs = .ok (bs.take 8, bs.drop 8) := by
    unfold readExact
    rw [if_pos (by omega)]
  have rd : ∀ n k, n + k ≤ 44 →
      readExact n (bs.drop k) = .ok ((bs.drop k).take n, bs.drop (k + n)) := by
    intro n k hnk
    unfold readExact
    rw [if_pos (by simp [List.length_drop]; omega)]
    rw [List.drop_drop, Nat.add_comm]
  unfold RpkgResourceMeta.from_binary
  simp only [r0, rd 8 8 (by omega), rd 4 16 (by omega), rd 4 20 (by omega),
    rd 4 24 (by omega), rd 4 28 (by omega), rd 4 32 (by omega),
    rd 4 36 (by omega), rd 4 40 (by omega), exceptBindOk, htable]
  simp only [ne_eq, not_true_eq_false, if_false, reduceIte]
  rfl

theorem claimC2_witness :
    RpkgResourceMeta.from_binary
        (List.replicate 24 0xFF ++ List.replicate 20 0) =
      .ok { hash_offset := 0xFFFFFFFFFFFFFFFF
          , hash_reference_data := []
          , hash_reference_table_dummy := 0
          , hash_reference_table_size := 0
          , hash_resource_type := ⟨[replChar, replChar, replChar, replChar]⟩
          , hash_size := 0xFFFFFFFF
          , hash_size_final := 0
          , hash_size_in_memory := 0
          , hash_size_in_video_memory := 0
          , hash_value := "FFFFFFFFFFFFFFFF"
          , hash_path := none } :=
  claimC2_from_binary_no_validation
    (List.replicate 24 0xFF ++ List.replicate 20 0) rfl rfl

end HitmanCommons

namespace HitmanCommons

theorem fromLEBytes_single (b : Nat) : fromLEBytes [b] = b := by
  simp [fromLEBytes]

theorem flatten_singletons (bs : List Nat) :
    (bs.map (fun b => [b])).flatten = bs := by
  induction bs <;> simp_all

theorem u8Radix_hexUpper (b : Nat) (hb : b < 256) :
    u8FromStrRadix16 (hexUpper b) = .ok b := by
  obtain ⟨c, rest, hd⟩ : ∃ c rest, (hexUpper b).data = c :: rest := by
    cases hcs : natToHex b with
    | nil =>
      have := natToHex_length_pos b
      rw [hcs] at this
      simp at this
    | cons c r => exact ⟨c, r, hcs⟩
  have hmem : c ∈ natToHex b := by
    have hud : (hexUpper b).data = natToHex b := rfl
    rw [hud] at hd
    rw [hd]
    simp
  have hcp : c ≠ '+' := by
    obtain ⟨d, hd16, rfl⟩ := natToHex_digits b c hmem
    intro he
    have h1 := hexCharVal_hexDigitChar d hd16
    rw [he] at h1
    rw [show hexCharVal '+' = none from by decide] at h1
    exact absurd h1 (by simp)
  exact u8Radix_of_digits _ c rest b hd hcp (parseHexAcc_natToHex b) hb

theorem encodeFlagBytes_ok (l : List RpkgResourceReference)
    (h : ∀ r ∈ l, ∃ b, b < 256 ∧ r.flag = hexUpper b) :
    ∃ bs, encodeFlagBytes l = .ok bs ∧ bs.length = l.length ∧
      (∀ b ∈ bs, b < 256) ∧
      bs.map (fun b => hexUpper b) = l.map RpkgResourceReference.flag := by
  induction l with
  | nil => exact ⟨[], rfl, rfl, by simp, by simp⟩
  | cons r rest ih =>
    obtain ⟨b, hb, hflag⟩ := h r (by simp)
    obtain ⟨bs, hbs, hlen2, hlt, hmap⟩ := ih (fun x hx => h x (by simp [hx]))
    refine ⟨b :: bs, ?_, by simp [hlen2], ?_, ?_⟩
    · simp only [encodeFlagBytes]
      rw [hflag, u8Radix_hexUpper b hb]
      simp [hbs]
    · intro x hx
      rcases List.mem_cons.mp hx with rfl | hx
      · exact hb
      · exact hlt x hx
    · simp [hmap, hflag]

theorem encodeRefIDBytes_ok (l : List RpkgResourceReference)
    (h : ∀ r ∈ l, ∃ w, w < 0x00FFFFFFFFFFFFFF ∧ r.hash = hex16 w) :
    ∃ ids : List Nat, encodeRefIDBytes l = .ok ((ids.map (toLEBytes 8)).flatten) ∧
      ids.length = l.length ∧
      (∀ w ∈ ids, w < 0x00FFFFFFFFFFFFFF) ∧
      ids.map (fun w => hex16 w) = l.map RpkgResourceReference.hash := by
  induction l with
  | nil => exact ⟨[], rfl, rfl, by simp, by simp⟩
  | cons r rest ih =>
    obtain ⟨w, hw, hhash⟩ := h r (by simp)
    obtain ⟨ids, hids, hlen2, hlt, hmap⟩ := ih (fun x hx => h x (by simp [hx]))
    refine ⟨w :: ids, ?_, by simp [hlen2], ?_, ?_⟩
    · simp only [encodeRefIDBytes]
      rw [hhash, from_any_hex16 w hw]
      simp [hids]
    · intro x hx
      rcases List.mem_cons.mp hx with rfl | hx
      · exact hw
      · exact hlt x hx
    · simp [hmap, hhash]

theorem lor_mask_count (N : Nat) (h : N < 2 ^ 30) :
    (N ||| 0xC0000000) &&& 0x3FFFFFFF = N := by
  apply Nat.eq_of_testBit_eq
  intro i
  rw [Nat.testBit_land, Nat.testBit_lor]
  by_cases hi : i < 30
  · have hm : Nat.testBit 0x3FFFFFFF i = true := by
      have he : (0x3FFFFFFF : Nat) = 2 ^ 30 - 1 := by norm_num
      rw [he, Nat.testBit_two_pow_sub_one]
      simpa using hi
    have hc : Nat.testBit 0xC0000000 i = false := by
      have he : (0xC0000000 : Nat) = 2 ^ 30 * 3 := by norm_num
      rw [he, Nat.testBit_mul_pow_two]
      simp [Nat.not_le.mpr hi]
    rw [hm, hc]
    simp
  · have hm : Nat.testBit 0x3FFFFFFF i = false := by
      have he : (0x3FFFFFFF : Nat) = 2 ^ 30 - 1 := by norm_num
      rw [he, Nat.testBit_two_pow_sub_one]
      simpa using hi
    have hn : Nat.testBit N i = false := by
      have hlt : N < 2 ^ i :=
        Nat.lt_of_lt_of_le h (Nat.pow_le_pow_right (by omega) (by omega))
      exact Nat.testBit_lt_two_pow hlt
    rw [hm, hn]
    simp

theorem zip_rebuild (bs ws : List Nat) (refs : List RpkgResourceReference)
    (hb : bs.map (fun b => hexUpper b) = refs.map RpkgResourceReference.flag)
    (hw : ws.map (fun w => hex16 w) = refs.map RpkgResourceReference.hash)
    (hlb : bs.length = refs.length) (hlw : ws.length = refs.length) :
    (bs.zip ws).map (fun p =>
      ({ hash := hex16 p.2, flag := hexUpper p.1 } : RpkgResourceReference)) =
      refs := by
  induction refs generalizing bs ws with
  | nil =>
    have hb0 : bs = [] := List.length_eq_zero.mp (by simpa using hlb)
    subst hb0
    simp
  | cons r rs ih =>
    cases bs with
    | nil => simp at hlb
    | cons b bs2 =>
      cases ws with
      | nil => simp at hlw
      | cons w ws2 =>
        simp only [List.map_cons, List.cons.injEq] at hb hw
        obtain ⟨hb1, hb2⟩ := hb
        obtain ⟨hw1, hw2⟩ := hw
        simp only [List.zip_cons_cons, List.map_cons]
        rw [ih bs2 ws2 hb2 hw2 (by simpa using hlb) (by simpa using hlw)]
        congr 1
        cases r with
        | mk rh rf =>
          have hw1b : hex16 w = rh := hw1
          have hb1b : hexUpper b = rf := hb1
          rw [hw1b, hb1b]

end HitmanCommons

namespace HitmanCommons

theorem exceptBindOk2 {α β ε : Type} (a : α) (f : α → Except ε β) :
    (Except.ok (ε := ε) a).bind f = f a := rfl

theorem from_binary_of_parts (idB offB sizeB rtB tsB dB fB mB vB tail : List Nat)
    (h1 : idB.length = 8) (h2 : offB.length = 8) (h3 : sizeB.length = 4)
    (h4 : rtB.length = 4) (h5 : tsB.length = 4) (h6 : dB.length = 4)
    (h7 : fB.length = 4) (h8 : mB.length = 4) (h9 : vB.length = 4) :
    RpkgResourceMeta.from_binary
      (idB ++ (offB ++ (sizeB ++ (rtB ++ (tsB ++ (dB ++ (fB ++ (mB ++
        (vB ++ tail))))))))) =
    (do
      let dependencies ←
        if fromLEBytes tsB ≠ 0 then do
          let (bc, r10) ← readExact 4 tail
          let hash_reference_count := fromLEBytes bc &&& 0x3FFFFFFF
          let (flags, r11) ← readGroups hash_reference_count 1 r10
          let (refs, _) ← readGroups hash_reference_count 8 r11
          pure ((flags.zip refs).map fun fr =>
            ({ hash := hex16 (fromLEBytes fr.2)
             , flag := hexUpper (fromLEBytes fr.1) } : RpkgResourceReference))
        else
          pure []
      pure
        { hash_offset := fromLEBytes offB
        , hash_reference_data := dependencies
        , hash_reference_table_dummy := fromLEBytes dB
        , hash_reference_table_size := fromLEBytes tsB
        , hash_resource_type := utf8LossyDecode rtB
        , hash_size := fromLEBytes sizeB
        , hash_size_final := fromLEBytes fB
        , hash_size_in_memory := fromLEBytes mB
        , hash_size_in_video_memory := fromLEBytes vB
        , hash_value := hex16 (fromLEBytes idB)
        , hash_path := none }) := by
  unfold RpkgResourceMeta.from_binary
  simp only [readExact_append _ _ _ h1, readExact_append _ _ _ h2,
    readExact_append _ _ _ h3, readExact_append _ _ _ h4,
    readExact_append _ _ _ h5, readExact_append _ _ _ h6,
    readExact_append _ _ _ h7, readExact_append _ _ _ h8,
    readExact_append _ _ _ h9, exceptBindOk]

end HitmanCommons

namespace HitmanCommons

theorem to_binary_ok_empty (m : RpkgResourceMeta) (v : Nat)
    (hv : v < 0x00FFFFFFFFFFFFFF) (hval : m.hash_value = hex16 v)
    (hemp : m.hash_reference_data = []) :
    RpkgResourceMeta.to_binary m =
      .ok (toLEBytes 8 v ++ (toLEBytes 8 m.hash_offset ++
        (toLEBytes 4 m.hash_size ++ (strBytes m.hash_resource_type ++
        ([0, 0, 0, 0] ++ (toLEBytes 4 m.hash_reference_table_dummy ++
        (toLEBytes 4 m.hash_size_final ++ (toLEBytes 4 m.hash_size_in_memory ++
        toLEBytes 4 m.hash_size_in_video_memory)))))))) := by
  unfold RpkgResourceMeta.to_binary
  rw [hval, from_any_hex16 v hv]
  simp [hemp, List.append_assoc]
  rfl

theorem to_binary_ok_nonempty (m : RpkgResourceMeta) (v : Nat)
    (hv : v < 0x00FFFFFFFFFFFFFF) (hval : m.hash_value = hex16 v)
    (hne : m.hash_reference_data ≠ [])
    (hcount : m.hash_reference_data.length * 9 + 4 ≤ 0xFFFFFFFF)
    (bs idBytes : List Nat)
    (hbs : encodeFlagBytes m.hash_reference_data = .ok bs)
    (hids : encodeRefIDBytes m.hash_reference_data = .ok idBytes) :
    RpkgResourceMeta.to_binary m =
      .ok (toLEBytes 8 v ++ (toLEBytes 8 m.hash_offset ++
        (toLEBytes 4 m.hash_size ++ (strBytes m.hash_resource_type ++
        (toLEBytes 4 (m.hash_reference_data.length * 9 + 4) ++
        (toLEBytes 4 m.hash_reference_table_dummy ++
        (toLEBytes 4 m.hash_size_final ++ (toLEBytes 4 m.hash_size_in_memory ++
        (toLEBytes 4 m.hash_size_in_video_memory ++
        (toLEBytes 4 (m.hash_reference_data.length ||| 0xC0000000) ++
        (bs ++ idBytes))))))))))) := by
  unfold RpkgResourceMeta.to_binary
  rw [hval, from_any_hex16 v hv]
  have hempF : m.hash_reference_data.isEmpty = false := by
    cases hd : m.hash_reference_data with
    | nil => exact absurd hd hne
    | cons a l => rfl
  have hlenmax : m.hash_reference_data.length ≤ 0xFFFFFFFF := by omega
  simp [hempF, hcount, hlenmax, hbs, hids, List.append_assoc, exceptBindOk]

end HitmanCommons

namespace HitmanCommons

/-- C5 (amended): for every `RpkgResourceMeta` whose string fields are in
the codec's canonical form (id and reference hashes are 16-digit zero-led
uppercase hex of in-range values, flags are minimal uppercase hex of a
byte, the resource type is four ASCII characters) and whose numeric fields
fit their wire widths, `from_binary(to_binary(m))` reproduces `m` exactly
except that `hash_path` becomes `None` (never serialised) and
`hash_reference_table_size` is recomputed as `4 + 9*N` (`0` when `N = 0`)
regardless of the stored value; all other fields, including
`hash_reference_table_dummy`, round-trip unchanged. -/
theorem claimC5_codec_roundtrip (m : RpkgResourceMeta) (v : Nat)
    (hv : v < 0x00FFFFFFFFFFFFFF)
    (hval : m.hash_value = hex16 v)
    (hrt4 : m.hash_resource_type.data.length = 4)
    (hrtA : ∀ c ∈ m.hash_resource_type.data, c.toNat < 0x80)
    (hoff : m.hash_offset < 2 ^ 64)
    (hsize : m.hash_size < 2 ^ 32)
    (hdummy : m.hash_reference_table_dummy < 2 ^ 32)
    (hfinal : m.hash_size_final < 2 ^ 32)
    (hmem : m.hash_size_in_memory < 2 ^ 32)
    (hvmem : m.hash_size_in_video_memory < 2 ^ 32)
    (hrefs : ∀ r ∈ m.hash_reference_data,
      (∃ w, w < 0x00FFFFFFFFFFFFFF ∧ r.hash = hex16 w) ∧
      (∃ b, b < 256 ∧ r.flag = hexUpper b))
    (hcount : m.hash_reference_data.length * 9 + 4 ≤ 0xFFFFFFFF) :
    (RpkgResourceMeta.to_binary m).bind RpkgResourceMeta.from_binary =
      .ok { m with
            hash_reference_table_size :=
              if m.hash_reference_data.isEmpty then 0
              else m.hash_reference_data.length * 9 + 4
          , hash_path := none } := by
  have hrtBlen : (strBytes m.hash_resource_type).length = 4 := by
    have hmk : strBytes m.hash_resource_type =
        m.hash_resource_type.data.map Char.toNat :=
      strBytes_ascii m.hash_resource_type.data hrtA
    rw [hmk, List.length_map, hrt4]
  have hlossy : utf8LossyDecode (strBytes m.hash_resource_type) =
      m.hash_resource_type :=
    lossy_strBytes_ascii m.hash_resource_type hrtA
  have e1 : fromLEBytes (toLEBytes 8 v) = v :=
    fromLEBytes_toLEBytes 8 v (by norm_num; omega)
  have e2 : fromLEBytes (toLEBytes 8 m.hash_offset) = m.hash_offset :=
    fromLEBytes_toLEBytes 8 _ (by norm_num; omega)
  have e3 : fromLEBytes (toLEBytes 4 m.hash_size) = m.hash_size :=
    fromLEBytes_toLEBytes 4 _ (by norm_num; omega)
  have e4 : fromLEBytes (toLEBytes 4 m.hash_reference_table_dummy) =
      m.hash_reference_table_dummy :=
    fromLEBytes_toLEBytes 4 _ (by norm_num; omega)
  have e5 : fromLEBytes (toLEBytes 4 m.hash_size_final) = m.hash_size_final :=
    fromLEBytes_toLEBytes 4 _ (by norm_num; omega)
  have e6 : fromLEBytes (toLEBytes 4 m.hash_size_in_memory) =
      m.hash_size_in_memory :=
    fromLEBytes_toLEBytes 4 _ (by norm_num; omega)
  have e7 : fromLEBytes (toLEBytes 4 m.hash_size_in_video_memory) =
      m.hash_size_in_video_memory :=
    fromLEBytes_toLEBytes 4 _ (by norm_num; omega)
  have hz : fromLEBytes [0, 0, 0, 0] = 0 := rfl
  by_cases hemp : m.hash_reference_data = []
  · rw [to_binary_ok_empty m v hv hval hemp, exceptBindOk2]
    have hdec := from_binary_of_parts (toLEBytes 8 v)
      (toLEBytes 8 m.hash_offset) (toLEBytes 4 m.hash_size)
      (strBytes m.hash_resource_type) [0, 0, 0, 0]
      (toLEBytes 4 m.hash_reference_table_dummy)
      (toLEBytes 4 m.hash_size_final) (toLEBytes 4 m.hash_size_in_memory)
      (toLEBytes 4 m.hash_size_in_video_memory) []
      (length_toLEBytes 8 v) (length_toLEBytes 8 _) (length_toLEBytes 4 _)
      hrtBlen rfl (length_toLEBytes 4 _) (length_toLEBytes 4 _)
      (length_toLEBytes 4 _) (length_toLEBytes 4 _)
    rw [List.append_nil] at hdec
    rw [hdec]
    simp [e1, e2, e3, e4, e5, e6, e7, hz, hlossy, hemp, hval]
    rfl
  · obtain ⟨bs, hbs, hbsLen, hbsLt, hbsMap⟩ :=
      encodeFlagBytes_ok m.hash_reference_data (fun r hr => (hrefs r hr).2)
    obtain ⟨ids, hids, hidsLen, hidsLt, hidsMap⟩ :=
      encodeRefIDBytes_ok m.hash_reference_data (fun r hr => (hrefs r hr).1)
    rw [to_binary_ok_nonempty m v hv hval hemp hcount bs
      ((ids.map (toLEBytes 8)).flatten) hbs hids, exceptBindOk2]
    have hts : fromLEBytes (toLEBytes 4 (m.hash_reference_data.length * 9 + 4)) =
        m.hash_reference_data.length * 9 + 4 :=
      fromLEBytes_toLEBytes 4 _ (by norm_num; omega)
    have hcnt32 : m.hash_reference_data.length ||| 0xC0000000 < 2 ^ 32 :=
      Nat.or_lt_two_pow (by norm_num; omega) (by norm_num)
    have hcntB : fromLEBytes
        (toLEBytes 4 (m.hash_reference_data.length ||| 0xC0000000)) =
        m.hash_reference_data.length ||| 0xC0000000 :=
      fromLEBytes_toLEBytes 4 _ (by norm_num; omega)
    have hmask : (m.hash_reference_data.length ||| 0xC0000000) &&& 0x3FFFFFFF =
        m.hash_reference_data.length :=
      lor_mask_count _ (by omega)
    have hdec := from_binary_of_parts (toLEBytes 8 v)
      (toLEBytes 8 m.hash_offset) (toLEBytes 4 m.hash_size)
      (strBytes m.hash_resource_type)
      (toLEBytes 4 (m.hash_reference_data.length * 9 + 4))
      (toLEBytes 4 m.hash_reference_table_dummy)
      (toLEBytes 4 m.hash_size_final) (toLEBytes 4 m.hash_size_in_memory)
      (toLEBytes 4 m.hash_size_in_video_memory)
      (toLEBytes 4 (m.hash_reference_data.length ||| 0xC0000000) ++
        (bs ++ (ids.map (toLEBytes 8)).flatten))
      (length_toLEBytes 8 v) (length_toLEBytes 8 _) (length_toLEBytes 4 _)
      hrtBlen (length_toLEBytes 4 _) (length_toLEBytes 4 _)
      (length_toLEBytes 4 _) (length_toLEBytes 4 _) (length_toLEBytes 4 _)
    rw [hdec]
    rw [if_pos (by rw [hts]; omega)]
    rw [readExact_append 4 _ _ (length_toLEBytes 4 _)]
    simp only [exceptBindOk, hcntB, hmask]
    have hg1 : readGroups m.hash_reference_data.length 1
        (bs ++ (ids.map (toLEBytes 8)).flatten) =
        .ok (bs.map (fun b => [b]), (ids.map (toLEBytes 8)).flatten) := by
      have hga := readGroups_append 1 (bs.map (fun b => [b]))
        ((ids.map (toLEBytes 8)).flatten)
        (by
          intro x hx
          simp only [List.mem_map] at hx
          obtain ⟨b, _, rfl⟩ := hx
          rfl)
      rw [flatten_singletons] at hga
      rw [List.length_map, hbsLen] at hga
      exact hga
    have hg2 : readGroups m.hash_reference_data.length 8
        ((ids.map (toLEBytes 8)).flatten) =
        .ok (ids.map (toLEBytes 8), []) := by
      have hga := readGroups_append 8 (ids.map (toLEBytes 8)) []
        (by
          intro x hx
          simp only [List.mem_map] at hx
          obtain ⟨w, _, rfl⟩ := hx
          exact length_toLEBytes 8 w)
      rw [List.append_nil] at hga
      rw [List.length_map, hidsLen] at hga
      exact hga
    rw [hg1]
    simp only [exceptBindOk]
    rw [hg2]
    simp only [exceptBindOk]
    have hdeps : (((bs.map (fun b => [b])).zip (ids.map (toLEBytes 8))).map
        (fun fr => ({ hash := hex16 (fromLEBytes fr.2)
                    , flag := hexUpper (fromLEBytes fr.1) } :
          RpkgResourceReference))) = m.hash_reference_data := by
      rw [List.zip_map, List.map_map]
      have hpt : ∀ p ∈ bs.zip ids,
          ((fun fr => ({ hash := hex16 (fromLEBytes fr.2)
                       , flag := hexUpper (fromLEBytes fr.1) } :
              RpkgResourceReference)) ∘
            Prod.map (fun b => [b]) (toLEBytes 8)) p =
          ({ hash := hex16 p.2, flag := hexUpper p.1 } :
            RpkgResourceReference) := by
        intro p hp
        obtain ⟨a, b⟩ := p
        obtain ⟨hp1, hp2⟩ := List.of_mem_zip hp
        simp only [Function.comp_apply, Prod.map_apply]
        rw [fromLEBytes_single,
          fromLEBytes_toLEBytes 8 b (by
            have := hidsLt b hp2
            norm_num
            omega)]
      rw [List.map_congr_left hpt]
      exact zip_rebuild bs ids m.hash_reference_data hbsMap hidsMap
        hbsLen hidsLen
    rw [hdeps]
    have hempF : m.hash_reference_data.isEmpty = false := by
      cases hd : m.hash_reference_data with
      | nil => exact absurd hd hemp
      | cons a l => rfl
    simp [e1, e2, e3, e4, e5, e6, e7, hts, hlossy, hval, hempF]
    rfl

end HitmanCommons

namespace HitmanCommons

/-- C5 counterexample: a record whose string fields are well-formed enough
for `to_binary` to succeed need not round-trip: with the reference flag
written as `"0f"` (a valid hexadecimal byte string that `to_binary`
accepts), decoding re-renders the flag as `"F"`, so the reference list — a
field outside the claim's exception list — differs after the round trip. -/
theorem claimC5_counterexample :
    (RpkgResourceMeta.to_binary
        { hash_offset := 0
        , hash_reference_data := [⟨"0000000000000002", "0f"⟩]
        , hash_reference_table_dummy := 0
        , hash_reference_table_size := 0
        , hash_resource_type := "TEMP"
        , hash_size := 0
        , hash_size_final := 0
        , hash_size_in_memory := 0
        , hash_size_in_video_memory := 0
        , hash_value := "0000000000000001"
        , hash_path := none }).isOk = true ∧
    (RpkgResourceMeta.to_binary
        { hash_offset := 0
        , hash_reference_data := [⟨"0000000000000002", "0f"⟩]
        , hash_reference_table_dummy := 0
        , hash_reference_table_size := 0
        , hash_resource_type := "TEMP"
        , hash_size := 0
        , hash_size_final := 0
        , hash_size_in_memory := 0
        , hash_size_in_video_memory := 0
        , hash_value := "0000000000000001"
        , hash_path := none }).bind RpkgResourceMeta.from_binary =
      .ok { hash_offset := 0
          , hash_reference_data := [⟨"0000000000000002", "F"⟩]
          , hash_reference_table_dummy := 0
          , hash_reference_table_size := 13
          , hash_resource_type := "TEMP"
          , hash_size := 0
          , hash_size_final := 0
          , hash_size_in_memory := 0
          , hash_size_in_video_memory := 0
          , hash_value := "0000000000000001"
          , hash_path := none } ∧
    ([(⟨"0000000000000002", "F"⟩ : RpkgResourceReference)] ≠
      [(⟨"0000000000000002", "0f"⟩ : RpkgResourceReference)]) := by
  refine ⟨rfl, rfl, by decide⟩

theorem claimC5_witness :
    (RpkgResourceMeta.to_binary
        { hash_offset := 7
        , hash_reference_data := [⟨"0000000000000002", "9E"⟩]
        , hash_reference_table_dummy := 5
        , hash_reference_table_size := 999
        , hash_resource_type := "TEMP"
        , hash_size := 3
        , hash_size_final := 4
        , hash_size_in_memory := 11
        , hash_size_in_video_memory := 12
        , hash_value := "0000000000000001"
        , hash_path := some "x" }).bind RpkgResourceMeta.from_binary =
      .ok { hash_offset := 7
          , hash_reference_data := [⟨"0000000000000002", "9E"⟩]
          , hash_reference_table_dummy := 5
          , hash_reference_table_size := 13
          , hash_resource_type := "TEMP"
          , hash_size := 3
          , hash_size_final := 4
          , hash_size_in_memory := 11
          , hash_size_in_video_memory := 12
          , hash_value := "0000000000000001"
          , hash_path := none } :=
  claimC5_codec_roundtrip
    { hash_offset := 7
    , hash_reference_data := [⟨"0000000000000002", "9E"⟩]
    , hash_reference_table_dummy := 5
    , hash_reference_table_size := 999
    , hash_resource_type := "TEMP"
    , hash_size := 3
    , hash_size_final := 4
    , hash_size_in_memory := 11
    , hash_size_in_video_memory := 12
    , hash_value := "0000000000000001"
    , hash_path := some "x" } 1
    (by norm_num) rfl rfl (by decide) (by norm_num) (by norm_num)
    (by norm_num) (by norm_num) (by norm_num) (by norm_num)
    (by
      intro r hr
      simp only [List.mem_singleton] at hr
      subst hr
      exact ⟨⟨2, by norm_num, rfl⟩, ⟨0x9E, by norm_num, rfl⟩⟩)
    (by norm_num)

end HitmanCommons
